import Mathlib

/-!
Shallow embedding of `src/systems/userinput/devices/app-aware-touchscreen.js`
(the `AppAwareTouchscreenDevice` class of mozilla/mr-social-client).

Modelling conventions:
* Touch screen coordinates (`clientX`, `clientY`), pinch distances and
  timestamps (`performance.now()`) are modelled as rationals `ℚ`.
* `Math.sqrt` is an external IEEE-754 numeric primitive; the whole model is
  parameterised over an abstract square-root function `sqrt : ℚ → ℚ` (bundled
  in `Ext`), so every theorem holds for any such function, including the real
  one.  The source's `distance` is translated faithfully on top of it.
* The external collaborators (raycaster hit-tests, camera pose projection,
  `performance.now()`) are modelled as oracle inputs: each event carries the
  boolean results of the two hit tests (`isCursorOverInteractable`,
  `shouldDelayStartTouch`) and the current timestamp, and the pose-projection
  collaborator is an abstract function `proj` bundled in `Ext`.
* The one-shot 150ms delay timer is modelled by a separate `timerFire`
  operation, which can occur whenever a touch is buffered (the JS timeout
  callback); `clearTimeout` is modelled by the fact that every path clearing
  `pendingFirstTouch` prevents any further `timerFire` from doing anything.
* JS dereferences of a possibly-`undefined` lookup result (`findByJob(...)`
  used without a guard) are modelled by a `crashed` flag on the state: the
  `none` branch of the corresponding `match` sets it.
-/

namespace Touchscreen

/-- A platform touch point: a stable identifier plus current screen
coordinates (`touch.identifier`, `touch.clientX`, `touch.clientY`). -/
structure Touch where
  identifier : ℕ
  clientX : ℚ
  clientY : ℚ
deriving DecidableEq, Repr

/-- The four job tags: `MOVE_CURSOR_JOB`, `MOVE_CAMERA_JOB`,
`FIRST_PINCHER_JOB`, `SECOND_PINCHER_JOB`. -/
inductive Job where
  | moveCursor
  | moveCamera
  | firstPincher
  | secondPincher
deriving DecidableEq, Repr

/-- A cursor pose, produced by the external camera-projection collaborator
(`Pose().fromCameraProjection`); the model never inspects its contents. -/
abbrev Pose := ℚ × ℚ

/-- One entry of the assignment table: the touch, its job, and the
job-specific mutable fields the JS code sets on the assignment object
(`clientX`/`clientY`, `delta`, `cursorPose`, `isFirstFrame`).  Fields not
set by a given job's code path keep their (never read) default. -/
structure Assignment where
  touch : Touch
  job : Job
  clientX : ℚ := 0
  clientY : ℚ := 0
  delta : ℚ × ℚ := (0, 0)
  cursorPose : Pose := (0, 0)
  isFirstFrame : Bool := false
deriving DecidableEq, Repr

/-- Modelled from the spec: the assignments module
(`./touchscreen/assignments`, not under `src/`).  Spec section 4.1: the table
is "a small ordered collection"; `findByTouch` is a pure lookup by touch
identity.  We model the collection as a `List` and the lookup as the first
entry with the given touch identifier. -/
def findByTouch (t : Touch) (l : List Assignment) : Option Assignment :=
  l.find? fun e => decide (e.touch.identifier = t.identifier)

/-- Modelled from the spec: `findByJob` is a pure lookup by job tag
(spec section 4.1), the first entry with the given job. -/
def findByJob (j : Job) (l : List Assignment) : Option Assignment :=
  l.find? fun e => decide (e.job = j)

/-- Modelled from the spec: `touchIsAssigned` is a pure lookup
(spec section 4.1). -/
def touchIsAssigned (t : Touch) (l : List Assignment) : Bool :=
  (findByTouch t l).isSome

/-- Modelled from the spec: `jobIsAssigned` is a pure lookup
(spec section 4.1). -/
def jobIsAssigned (j : Job) (l : List Assignment) : Bool :=
  (findByJob j l).isSome

/-- Modelled from the spec: `assign(touch, job)` "creates and returns a new
assignment" appended to the ordered collection, and "fails (silently returns
nothing meaningful upstream ...) if misused" (spec section 4.1), where the
table "enforces at-most-one job per touch and at-most-one touch per job"
(spec section 2): an assignment that would give an already-assigned touch a
second job, or an already-assigned job a second touch, is refused and the
table is unchanged.  The JS call sites immediately set the job-specific
fields on the returned object before any further table operation; in the
pure model the caller passes the fully initialised assignment record. -/
def assign (e : Assignment) (l : List Assignment) : List Assignment :=
  if touchIsAssigned e.touch l || jobIsAssigned e.job l then l
  else l ++ [e]

/-- Modelled from the spec: `unassign(touch, job)` "removes the matching
entry" (spec section 4.1): every entry carrying this touch identity and this
job is removed (the table invariants make it unique). -/
def unassign (t : Touch) (j : Job) (l : List Assignment) : List Assignment :=
  l.filter fun e => !(decide (e.touch.identifier = t.identifier) && decide (e.job = j))

/-- In-place mutation of the entry returned by `findByTouch` (the JS code
mutates fields through the reference): update the first entry with the given
touch identifier. -/
def updateByTouch (t : Touch) (f : Assignment → Assignment) :
    List Assignment → List Assignment
  | [] => []
  | e :: rest =>
    if e.touch.identifier = t.identifier then f e :: rest
    else e :: updateByTouch t f rest

/-- In-place mutation of the entry returned by `findByJob`: update the first
entry with the given job. -/
def updateByJob (j : Job) (f : Assignment → Assignment) :
    List Assignment → List Assignment
  | [] => []
  | e :: rest =>
    if e.job = j then f e :: rest
    else e :: updateByJob j f rest

/-- The external collaborators the device is parameterised over: the square
root used by `distance` (JS `Math.sqrt`) and the camera pose projection used
for `cursorPose` (JS `fromCameraProjection` on the player camera, including
the normalisation by `window.innerWidth`/`innerHeight`). -/
structure Ext where
  sqrt : ℚ → ℚ
  proj : ℚ → ℚ → Pose

/-- Source lines 10-14: `distance(x1, y1, x2, y2)` returns
`Math.sqrt(dx * dx + dy * dy)` for `dx = x1 - x2`, `dy = y1 - y2`. -/
def distance (ext : Ext) (x1 y1 x2 y2 : ℚ) : ℚ :=
  let dx := x1 - x2
  let dy := y1 - y2
  ext.sqrt (dx * dx + dy * dy)

/-- The pinch state `this.pinch = { initialDistance, currentDistance, delta }`. -/
structure Pinch where
  initialDistance : ℚ
  currentDistance : ℚ
  delta : ℚ
deriving DecidableEq, Repr

/-- The pending-tap bookkeeping `this.pendingTap = { maxTouchCount, startedAt }`.
The JS reset `this.pendingTap = { maxTouchCount: 0 }` leaves `startedAt`
undefined; it is re-set before it can be read again, so the model stores `0`. -/
structure PendingTap where
  maxTouchCount : ℕ
  startedAt : ℚ
deriving DecidableEq, Repr

/-- The mutable state of an `AppAwareTouchscreenDevice` (constructor, source
lines 62-75), plus a `crashed` flag marking any JS dereference of an
`undefined` lookup result. -/
structure State where
  assignments : List Assignment := []
  pinch : Pinch := ⟨0, 0, 0⟩
  pendingTap : PendingTap := ⟨0, 0⟩
  tapIndexToWriteNextFrame : ℕ := 0
  pendingFirstTouch : Option Touch := none
  crashed : Bool := false
deriving DecidableEq, Repr

/-- The freshly constructed device. -/
def initState : State := {}

/-- Source lines 275-279 (tail of `processTouchStart`): record the pending-tap
start timestamp when transitioning from zero to nonzero assignments, then
track the high-water mark of the assignment count. -/
def updatePendingTap (now : ℚ) (s : State) : State :=
  let s1 :=
    if s.pendingTap.maxTouchCount = 0 ∧ 0 < s.assignments.length then
      { s with pendingTap := { s.pendingTap with startedAt := now } }
    else s
  { s1 with pendingTap :=
      { s1.pendingTap with maxTouchCount := max s1.pendingTap.maxTouchCount s1.assignments.length } }

/-- Source lines 229-273 (body of `processTouchStart` between the
already-assigned guard and the pending-tap bookkeeping): the priority policy
choosing a job for a new touch.  `interactable` is the oracle result of
`isCursorOverInteractable(touch, raycaster)`. -/
def resolveTouchStart (ext : Ext) (interactable : Bool) (allowMoveToNonInteractable : Bool)
    (touch : Touch) (s : State) : State :=
  let hasFirstPinch := jobIsAssigned .firstPincher s.assignments
  if !hasFirstPinch && !jobIsAssigned .moveCursor s.assignments &&
      (allowMoveToNonInteractable || interactable) then
    { s with assignments :=
        assign { touch := touch, job := .moveCursor,
                 cursorPose := ext.proj touch.clientX touch.clientY,
                 isFirstFrame := true } s.assignments }
  else if !hasFirstPinch && !jobIsAssigned .moveCamera s.assignments then
    { s with assignments :=
        assign { touch := touch, job := .moveCamera,
                 clientX := touch.clientX, clientY := touch.clientY,
                 delta := (0, 0) } s.assignments }
  else if !jobIsAssigned .secondPincher s.assignments then
    let firstAndTable : Option (Assignment × List Assignment) :=
      if jobIsAssigned .firstPincher s.assignments then
        (findByJob .firstPincher s.assignments).map fun first => (first, s.assignments)
      else
        (findByJob .moveCamera s.assignments).map fun cameraMover =>
          let a1 := unassign cameraMover.touch cameraMover.job s.assignments
          let first : Assignment :=
            { touch := cameraMover.touch, job := .firstPincher,
              clientX := cameraMover.clientX, clientY := cameraMover.clientY }
          (first, assign first a1)
    match firstAndTable with
    | none => { s with crashed := true }
    | some (first, a1) =>
      let second : Assignment :=
        { touch := touch, job := .secondPincher,
          clientX := touch.clientX, clientY := touch.clientY }
      let initialDistance :=
        distance ext first.clientX first.clientY second.clientX second.clientY
      { s with assignments := assign second a1,
               pinch := ⟨initialDistance, initialDistance, 0⟩ }
  else
    -- console.warn("no job suitable for touch"): the touch is dropped.
    s

/-- Source lines 223-280: `processTouchStart(touch, allowMoveToNonInteractable)`.
A touch that already has a job is a reported programmer error and the
operation aborts with no state change. -/
def processTouchStart (ext : Ext) (interactable : Bool) (now : ℚ)
    (allowMoveToNonInteractable : Bool) (touch : Touch) (s : State) : State :=
  if touchIsAssigned touch s.assignments then s
  else updatePendingTap now (resolveTouchStart ext interactable allowMoveToNonInteractable touch s)

/-- Source lines 196-221: `start(touch)`.  `shouldDelay` is the oracle result
of `shouldDelayStartTouch(touch, raycaster)` (true away from UI surfaces).
If a touch is already buffered it is assigned `FIRST_PINCHER_JOB` directly,
the buffer and its timer are cleared, and the new touch is processed
immediately; otherwise the touch is either buffered (with its 150ms timer,
modelled by the separate `timerFire` operation) or processed immediately. -/
def start (ext : Ext) (shouldDelay interactable : Bool) (now : ℚ)
    (touch : Touch) (s : State) : State :=
  match s.pendingFirstTouch with
  | some pending =>
    let s1 := { s with
      assignments :=
        assign { touch := pending, job := .firstPincher,
                 clientX := pending.clientX, clientY := pending.clientY } s.assignments,
      pendingFirstTouch := none }
    processTouchStart ext interactable now false touch s1
  | none =>
    if shouldDelay then { s with pendingFirstTouch := some touch }
    else processTouchStart ext interactable now false touch s

/-- Source lines 214-217: the 150ms timeout callback
`this.processTouchStart(this.pendingFirstTouch); this.pendingFirstTouch = null`.
A cancelled timer (cleared buffer) never fires, so the operation does nothing
when no touch is buffered. -/
def timerFire (ext : Ext) (interactable : Bool) (now : ℚ) (s : State) : State :=
  match s.pendingFirstTouch with
  | some pending =>
    { processTouchStart ext interactable now false pending s with pendingFirstTouch := none }
  | none => s

/-- Source lines 153-187 (body of `move` past the pending-first-touch check). -/
def moveCore (ext : Ext) (touch : Touch) (s : State) : State :=
  if !touchIsAssigned touch s.assignments then
    -- console.warn unless the target is a virtual-gamepad control; no state change.
    s
  else
    match findByTouch touch s.assignments with
    | none => s
    | some assignment =>
      match assignment.job with
      | .moveCursor =>
        let a1 :=
          updateByTouch touch
            (fun e => { e with cursorPose := ext.proj touch.clientX touch.clientY })
            s.assignments
        { s with assignments := a1 }
      | .moveCamera =>
        let a1 :=
          updateByTouch touch
            (fun e =>
              { e with
                delta := (e.delta.1 + (touch.clientX - e.clientX),
                          e.delta.2 + (touch.clientY - e.clientY)),
                clientX := touch.clientX, clientY := touch.clientY })
            s.assignments
        { s with assignments := a1 }
      | .firstPincher | .secondPincher =>
        let a1 :=
          updateByTouch touch
            (fun e => { e with clientX := touch.clientX, clientY := touch.clientY })
            s.assignments
        if jobIsAssigned .firstPincher a1 && jobIsAssigned .secondPincher a1 then
          match findByJob .firstPincher a1, findByJob .secondPincher a1 with
          | some first, some second =>
            let currentDistance :=
              distance ext first.clientX first.clientY second.clientX second.clientY
            { s with assignments := a1,
                     pinch := { s.pinch with
                       delta := s.pinch.delta + (currentDistance - s.pinch.currentDistance),
                       currentDistance := currentDistance } }
          | _, _ => { s with assignments := a1, crashed := true }
        else { s with assignments := a1 }

/-- Source lines 145-188: `move(touch)`.  A move targeting the buffered first
touch resolves it as an ordinary touch start, clears the buffer, and defers
the move itself via `setTimeout` (the deferred move is a later operation of
the trace, not part of this one). -/
def move (ext : Ext) (interactable : Bool) (now : ℚ) (touch : Touch) (s : State) : State :=
  match s.pendingFirstTouch with
  | some pending =>
    if pending.identifier = touch.identifier then
      { processTouchStart ext interactable now false pending s with pendingFirstTouch := none }
    else moveCore ext touch s
  | none => moveCore ext touch s

/-- Source lines 98-118: the `FIRST_PINCHER_JOB` case of `end`: remove the
assignment, reset the pinch state, and promote an existing SecondPincher
(to FirstPincher when a CameraMove exists, to CameraMove otherwise). -/
def endFirstPincher (assignment : Assignment) (s : State) : State :=
  let a1 := unassign assignment.touch assignment.job s.assignments
  if jobIsAssigned .secondPincher a1 then
    match findByJob .secondPincher a1 with
    | none => { s with assignments := a1, pinch := ⟨0, 0, 0⟩, crashed := true }
    | some second =>
      let a2 := unassign second.touch second.job a1
      if jobIsAssigned .moveCamera a2 then
        -- reassign secondPincher to firstPincher
        { s with pinch := ⟨0, 0, 0⟩, assignments :=
            assign { touch := second.touch, job := .firstPincher,
                     clientX := second.clientX, clientY := second.clientY } a2 }
      else
        -- reassign secondPincher to moveCamera
        { s with pinch := ⟨0, 0, 0⟩, assignments :=
            assign { touch := second.touch, job := .moveCamera,
                     clientX := second.clientX, clientY := second.clientY,
                     delta := (0, 0) } a2 }
  else { s with assignments := a1, pinch := ⟨0, 0, 0⟩ }

/-- Source lines 119-131: the `SECOND_PINCHER_JOB` case of `end`: remove the
assignment, reset the pinch state, and demote a remaining FirstPincher to
CameraMove when no CameraMove exists. -/
def endSecondPincher (assignment : Assignment) (s : State) : State :=
  let a1 := unassign assignment.touch assignment.job s.assignments
  if jobIsAssigned .firstPincher a1 && !jobIsAssigned .moveCamera a1 then
    match findByJob .firstPincher a1 with
    | none => { s with assignments := a1, pinch := ⟨0, 0, 0⟩, crashed := true }
    | some first =>
      -- reassign firstPincher to moveCamera
      let cameraMover : Assignment :=
        { touch := first.touch, job := .moveCamera,
          clientX := first.clientX, clientY := first.clientY, delta := (0, 0) }
      { s with pinch := ⟨0, 0, 0⟩, assignments :=
          assign cameraMover (unassign first.touch first.job a1) }
  else { s with assignments := a1, pinch := ⟨0, 0, 0⟩ }

/-- Source lines 135-142: after a removal, when the table is empty, a pending
tap that started at most 125ms ago schedules its touch count for the next
frame write, and the pending tap is reset. -/
def endTapCheck (now : ℚ) (s : State) : State :=
  if s.assignments.length = 0 then
    let s1 :=
      if 0 < s.pendingTap.maxTouchCount ∧ now - s.pendingTap.startedAt ≤ 125 then
        { s with tapIndexToWriteNextFrame := s.pendingTap.maxTouchCount }
      else s
    { s1 with pendingTap := ⟨0, 0⟩ }
  else s

/-- Source lines 89-142 (body of `end` past the pending-first-touch check). -/
def endCore (now : ℚ) (touch : Touch) (s : State) : State :=
  let s1 :=
    if !touchIsAssigned touch s.assignments then
      -- console.warn("touch does not have a job"); no removal.
      s
    else
      match findByTouch touch s.assignments with
      | none => s
      | some assignment =>
        match assignment.job with
        | .moveCursor =>
          { s with assignments := unassign assignment.touch assignment.job s.assignments }
        | .moveCamera =>
          { s with assignments := unassign assignment.touch assignment.job s.assignments }
        | .firstPincher => endFirstPincher assignment s
        | .secondPincher => endSecondPincher assignment s
  endTapCheck now s1

/-- Source lines 77-143: `end(touch)`.  An end targeting the buffered first
touch resolves it as an ordinary touch start with
`allowMoveToNonInteractable = true` (the `isCursorOverInteractable` hit test
is short-circuited away), clears the buffer, and defers the end itself via
`setTimeout` (the deferred end is a later operation of the trace). -/
def endTouch (ext : Ext) (now : ℚ) (touch : Touch) (s : State) : State :=
  match s.pendingFirstTouch with
  | some pending =>
    if pending.identifier = touch.identifier then
      { processTouchStart ext false now true pending s with pendingFirstTouch := none }
    else endCore now touch s
  | none => endCore now touch s

/-- One device-level touch event, as drained from the event queue by `write`
(`process` iterates the platform event's `changedTouches` or `touches`;
the queue is modelled flattened into per-touch events).  Each event carries
the oracle hit-test results and timestamp of its processing moment.
`touchend` and `touchcancel` are processed identically. -/
inductive Ev where
  | startEv (shouldDelay interactable : Bool) (now : ℚ) (touch : Touch)
  | moveEv (interactable : Bool) (now : ℚ) (touch : Touch)
  | endEv (now : ℚ) (touch : Touch)

/-- Source lines 282-301: `process(event)` dispatches one drained event. -/
def applyEv (ext : Ext) (e : Ev) (s : State) : State :=
  match e with
  | .startEv shouldDelay interactable now touch => start ext shouldDelay interactable now touch s
  | .moveEv interactable now touch => move ext interactable now touch s
  | .endEv now touch => endTouch ext now touch s

/-- The output frame: a write-only sink keyed by semantic paths
(`paths.device.touchscreen.*`); `none` means the path was not written this
frame.  `tap = some n` records that the `tap-n` path was written `true`.
Modelled from the spec for the `paths` module (not under `src/`): spec
section 6 lists `tapN` paths for every detected finger count, so the
`if (path)` existence guard in the source always passes. -/
structure Frame where
  isTouching : Option Bool := none
  cursorPose : Option Pose := none
  isTouchingGrabbable : Option Bool := none
  touchCameraDelta : Option (ℚ × ℚ) := none
  pinchDelta : Option ℚ := none
  pinchInitialDistance : Option ℚ := none
  pinchCurrentDistance : Option ℚ := none
  tap : Option ℕ := none
deriving DecidableEq, Repr

/-- Source lines 304-312 (head of `write`): reset the pinch delta (the pinch
object always exists) and, when a camera mover is assigned, its delta vector,
before any queued event is processed. -/
def writePrelude (s : State) : State :=
  match findByJob .moveCamera s.assignments with
  | some _ =>
    { s with pinch := { s.pinch with delta := 0 }, assignments :=
        updateByJob .moveCamera (fun e => { e with delta := (0, 0) }) s.assignments }
  | none => { s with pinch := { s.pinch with delta := 0 } }

/-- Source lines 303-356: `write(frame)`.  `evs` is the queued platform event
buffer drained (in arrival order) by this tick; the function returns the
post-tick state and the written frame. -/
def write (ext : Ext) (evs : List Ev) (s : State) : State × Frame :=
  let s2 := evs.foldl (fun st e => applyEv ext e st) (writePrelude s)
  let hasCursorJob := jobIsAssigned .moveCursor s2.assignments
  let hasCameraJob := jobIsAssigned .moveCamera s2.assignments
  let f1 : Frame :=
    if hasCursorJob || hasCameraJob then { isTouching := some true } else {}
  let cursorEntry := findByJob .moveCursor s2.assignments
  let f2 :=
    match cursorEntry with
    | some assignment =>
      -- hover on the first frame, grab from the next one on
      { f1 with cursorPose := some assignment.cursorPose,
                isTouchingGrabbable := some (!assignment.isFirstFrame) }
    | none => f1
  let s3 :=
    match cursorEntry with
    | some _ =>
      { s2 with assignments :=
          updateByJob .moveCursor (fun e => { e with isFirstFrame := false }) s2.assignments }
    | none => s2
  let f3 :=
    if hasCameraJob then
      match findByJob .moveCamera s3.assignments with
      | some cameraMover => { f2 with touchCameraDelta := some cameraMover.delta }
      | none => f2
    else f2
  let f4 := { f3 with
    pinchDelta := some s3.pinch.delta,
    pinchInitialDistance := some s3.pinch.initialDistance,
    pinchCurrentDistance := some s3.pinch.currentDistance }
  let f5 :=
    if s3.tapIndexToWriteNextFrame ≠ 0 then
      { f4 with tap := some s3.tapIndexToWriteNextFrame }
    else f4
  ({ s3 with tapIndexToWriteNextFrame := 0 }, f5)

/-- One operation of the device: the four touch-event handlers, a delay-timer
firing, or a frame write draining a queue of buffered events. -/
inductive Op where
  | startOp (shouldDelay interactable : Bool) (now : ℚ) (touch : Touch)
  | moveOp (interactable : Bool) (now : ℚ) (touch : Touch)
  | endOp (now : ℚ) (touch : Touch)
  | timerOp (interactable : Bool) (now : ℚ)
  | writeOp (evs : List Ev)

/-- Apply one operation to the device state. -/
def applyOp (ext : Ext) (op : Op) (s : State) : State :=
  match op with
  | .startOp shouldDelay interactable now touch => start ext shouldDelay interactable now touch s
  | .moveOp interactable now touch => move ext interactable now touch s
  | .endOp now touch => endTouch ext now touch s
  | .timerOp interactable now => timerFire ext interactable now s
  | .writeOp evs => (write ext evs s).1

/-- Run a sequence of operations from the freshly constructed device. -/
def run (ext : Ext) (ops : List Op) : State :=
  ops.foldl (fun s op => applyOp ext op s) initState

/-- The touch identifiers, in table order. -/
def touchIds (l : List Assignment) : List ℕ :=
  l.map fun e => e.touch.identifier

/-- Number of assignments carrying a given job tag. -/
def countJob (j : Job) (l : List Assignment) : ℕ :=
  l.countP fun e => decide (e.job = j)

/-- Each touch identity appears in at most one assignment. -/
def TouchUnique (l : List Assignment) : Prop :=
  (touchIds l).Nodup

/-- A buffered pending first touch is never already assigned. -/
def PendingFresh (s : State) : Prop :=
  ∀ p, s.pendingFirstTouch = some p → touchIsAssigned p s.assignments = false

/-- At most one CursorMove, at most one CameraMove and at most one
SecondPincher assignment exist (FirstPincher deliberately not included). -/
def JobBounds (l : List Assignment) : Prop :=
  countJob .moveCursor l ≤ 1 ∧ countJob .moveCamera l ≤ 1 ∧ countJob .secondPincher l ≤ 1

/-- A SecondPincher assignment exists only if a FirstPincher assignment does. -/
def SecondHasFirst (l : List Assignment) : Prop :=
  jobIsAssigned .secondPincher l = true → jobIsAssigned .firstPincher l = true

/-- The invariants that hold along every operation sequence whatsoever: with
the table refusing conflicting assignments, touch uniqueness and every
per-job bound (FirstPincher included) hold unconditionally. -/
def InvA (s : State) : Prop :=
  TouchUnique s.assignments ∧ countJob .firstPincher s.assignments ≤ 1 ∧
    JobBounds s.assignments ∧ SecondHasFirst s.assignments

/-- The invariants that additionally need the platform's touch lifecycle
contract (no touch-start for an already-assigned identity). -/
def InvB (s : State) : Prop :=
  InvA s ∧ TouchUnique s.assignments ∧ PendingFresh s

/-- The platform contract for one queued event: a touch-start is only
delivered for a touch identity that is not currently assigned. -/
def evFresh (e : Ev) (s : State) : Bool :=
  match e with
  | .startEv _ _ _ touch => !touchIsAssigned touch s.assignments
  | .moveEv _ _ _ => true
  | .endEv _ _ => true

/-- The platform contract for a queue of events drained in order. -/
def freshEvs (ext : Ext) : State → List Ev → Bool
  | _, [] => true
  | s, e :: rest => evFresh e s && freshEvs ext (applyEv ext e s) rest

/-- Device states reachable by operation sequences respecting the platform's
touch lifecycle contract: a touch-start (whether delivered directly or drained
by a frame write) only ever concerns a touch identity that is not currently
assigned.  Moves, ends and timer firings are unrestricted. -/
inductive ReachableF (ext : Ext) : State → Prop where
  | init : ReachableF ext initState
  | stepStart {s : State} (shouldDelay interactable : Bool) (now : ℚ) (touch : Touch) :
      ReachableF ext s → touchIsAssigned touch s.assignments = false →
      ReachableF ext (start ext shouldDelay interactable now touch s)
  | stepMove {s : State} (interactable : Bool) (now : ℚ) (touch : Touch) :
      ReachableF ext s → ReachableF ext (move ext interactable now touch s)
  | stepEnd {s : State} (now : ℚ) (touch : Touch) :
      ReachableF ext s → ReachableF ext (endTouch ext now touch s)
  | stepTimer {s : State} (interactable : Bool) (now : ℚ) :
      ReachableF ext s → ReachableF ext (timerFire ext interactable now s)
  | stepWrite {s : State} (evs : List Ev) :
      ReachableF ext s → freshEvs ext (writePrelude s) evs = true →
      ReachableF ext ((write ext evs s).1)

/-- A sample external-collaborator instance used by concrete runs: the square
root and the pose projection are arbitrary, so any concrete choice exercises
the model. -/
def ext0 : Ext := ⟨fun q => q, fun x y => (x, y)⟩

/-- Whether a queued event is a touch-move event. -/
def Ev.isMove : Ev → Bool
  | .moveEv _ _ _ => true
  | _ => false

/-- Example state: a pinch in progress, built by two immediate touch starts
(touch 1 is promoted from CameraMove to FirstPincher when touch 2 lands and
becomes SecondPincher). -/
def exTwoTouchState : State :=
  run ext0 [Op.startOp false false 0 ⟨1, 0, 0⟩, Op.startOp false false 1 ⟨2, 3, 4⟩]

/-- The SecondPincher table entry of `exTwoTouchState`. -/
def exSecondEntry : Assignment :=
  { touch := ⟨2, 3, 4⟩, job := .secondPincher, clientX := 3, clientY := 4 }

theorem countJob_nil (j : Job) : countJob j [] = 0 := rfl

theorem assign_eq_append {e : Assignment} {l : List Assignment}
    (ht : touchIsAssigned e.touch l = false) (hj : jobIsAssigned e.job l = false) :
    assign e l = l ++ [e] := by
  rw [assign, if_neg]
  simp [ht, hj]

theorem assign_eq_self {e : Assignment} {l : List Assignment}
    (h : touchIsAssigned e.touch l = true ∨ jobIsAssigned e.job l = true) :
    assign e l = l := by
  rw [assign, if_pos]
  rcases h with h | h <;> simp [h]

theorem assign_cases (e : Assignment) (l : List Assignment) :
    assign e l = l ∨
      touchIsAssigned e.touch l = false ∧ jobIsAssigned e.job l = false ∧
        assign e l = l ++ [e] := by
  by_cases ht : touchIsAssigned e.touch l = true
  · exact Or.inl (assign_eq_self (Or.inl ht))
  · rw [Bool.not_eq_true] at ht
    by_cases hj : jobIsAssigned e.job l = true
    · exact Or.inl (assign_eq_self (Or.inr hj))
    · rw [Bool.not_eq_true] at hj
      exact Or.inr ⟨ht, hj, assign_eq_append ht hj⟩

theorem countJob_append_one (j : Job) (e : Assignment) (l : List Assignment) :
    countJob j (l ++ [e]) = countJob j l + if e.job = j then 1 else 0 := by
  simp [countJob, List.countP_append, List.countP_cons]

theorem countJob_unassign_le (j : Job) (t : Touch) (j2 : Job) (l : List Assignment) :
    countJob j (unassign t j2 l) ≤ countJob j l :=
  List.Sublist.countP_le _ (List.filter_sublist l)

theorem countJob_unassign_ne (t : Touch) {j j2 : Job} (h : j ≠ j2) (l : List Assignment) :
    countJob j (unassign t j2 l) = countJob j l := by
  rw [countJob, unassign, List.countP_filter]
  apply List.countP_congr
  intro e _
  by_cases hj : e.job = j
  · have hj2 : ¬ e.job = j2 := by rw [hj]; exact h
    simp [hj, hj2]
    exact Or.inr h
  · simp [hj]

theorem jobIsAssigned_iff_pos (j : Job) (l : List Assignment) :
    jobIsAssigned j l = true ↔ 0 < countJob j l := by
  simp [jobIsAssigned, findByJob, List.find?_isSome, countJob, List.countP_pos_iff]

theorem jobIsAssigned_false_iff (j : Job) (l : List Assignment) :
    jobIsAssigned j l = false ↔ countJob j l = 0 := by
  rw [← Bool.not_eq_true, jobIsAssigned_iff_pos]
  omega

theorem jobIsAssigned_append_one (j : Job) (e : Assignment) (l : List Assignment) :
    jobIsAssigned j (l ++ [e]) = (jobIsAssigned j l || decide (e.job = j)) := by
  by_cases hej : e.job = j
  · simp [jobIsAssigned, findByJob, List.find?_append, hej]
  · simp [jobIsAssigned, findByJob, List.find?_append, hej]

theorem countJob_assign_le_one (j : Job) (e : Assignment) (l : List Assignment)
    (h : countJob j l ≤ 1) : countJob j (assign e l) ≤ 1 := by
  rcases assign_cases e l with hA | ⟨ht, hj, hA⟩
  · rw [hA]
    exact h
  · rw [hA, countJob_append_one]
    by_cases hje : e.job = j
    · rw [if_pos hje]
      have h0 : countJob e.job l = 0 := (jobIsAssigned_false_iff e.job l).mp hj
      rw [hje] at h0
      omega
    · rw [if_neg hje]
      omega

theorem jobIsAssigned_assign_of_pos {j : Job} {l : List Assignment}
    (h : jobIsAssigned j l = true) (e : Assignment) :
    jobIsAssigned j (assign e l) = true := by
  rcases assign_cases e l with hA | ⟨_, _, hA⟩ <;> rw [hA]
  · exact h
  · rw [jobIsAssigned_append_one, h]
    rfl

theorem jobIsAssigned_assign_of_ne {j : Job} {e : Assignment} {l : List Assignment}
    (hbase : jobIsAssigned j l = false) (hne : e.job ≠ j) :
    jobIsAssigned j (assign e l) = false := by
  rcases assign_cases e l with hA | ⟨_, _, hA⟩ <;> rw [hA]
  · exact hbase
  · rw [jobIsAssigned_append_one, hbase]
    simp [hne]

theorem jobIsAssigned_unassign_ne (t : Touch) {j j2 : Job} (h : j ≠ j2) (l : List Assignment) :
    jobIsAssigned j (unassign t j2 l) = jobIsAssigned j l := by
  by_cases hl : jobIsAssigned j l = true
  · rw [hl, jobIsAssigned_iff_pos, countJob_unassign_ne t h]
    rw [jobIsAssigned_iff_pos] at hl
    exact hl
  · rw [Bool.not_eq_true] at hl
    rw [hl, jobIsAssigned_false_iff, countJob_unassign_ne t h]
    rw [jobIsAssigned_false_iff] at hl
    exact hl

theorem jobIsAssigned_eq_of_countJob_eq {j : Job} {l1 l2 : List Assignment}
    (h : countJob j l1 = countJob j l2) : jobIsAssigned j l1 = jobIsAssigned j l2 := by
  cases hb : jobIsAssigned j l2 with
  | false =>
    have c2 : countJob j l2 = 0 := (jobIsAssigned_false_iff j l2).mp hb
    have c1 : countJob j l1 = 0 := by omega
    exact (jobIsAssigned_false_iff j l1).mpr c1
  | true =>
    have c2 : 0 < countJob j l2 := (jobIsAssigned_iff_pos j l2).mp hb
    have c1 : 0 < countJob j l1 := by omega
    exact (jobIsAssigned_iff_pos j l1).mpr c1

theorem countJob_updateByTouch (j : Job) (t : Touch) (f : Assignment → Assignment)
    (hf : ∀ e, (f e).job = e.job) (l : List Assignment) :
    countJob j (updateByTouch t f l) = countJob j l := by
  induction l with
  | nil => rfl
  | cons e rest ih =>
    by_cases hid : e.touch.identifier = t.identifier
    · simp [updateByTouch, hid, countJob, List.countP_cons, hf]
    · simp only [updateByTouch, hid, if_false]
      simp only [countJob, List.countP_cons] at ih ⊢
      omega

theorem countJob_updateByJob (j j2 : Job) (f : Assignment → Assignment)
    (hf : ∀ e, (f e).job = e.job) (l : List Assignment) :
    countJob j (updateByJob j2 f l) = countJob j l := by
  induction l with
  | nil => rfl
  | cons e rest ih =>
    by_cases hj : e.job = j2
    · simp [updateByJob, hj, countJob, List.countP_cons, hf]
    · simp only [updateByJob, hj, if_false]
      simp only [countJob, List.countP_cons] at ih ⊢
      omega

theorem touchIds_append_one (e : Assignment) (l : List Assignment) :
    touchIds (l ++ [e]) = touchIds l ++ [e.touch.identifier] := by
  simp [touchIds]

theorem mem_touchIds_assign {i : ℕ} {e : Assignment} {l : List Assignment}
    (hi : i ∈ touchIds (assign e l)) : i ∈ touchIds l ∨ i = e.touch.identifier := by
  rcases assign_cases e l with hA | ⟨_, _, hA⟩
  · rw [hA] at hi
    exact Or.inl hi
  · rw [hA, touchIds_append_one, List.mem_append, List.mem_singleton] at hi
    exact hi

theorem touchIds_unassign_sublist (t : Touch) (j : Job) (l : List Assignment) :
    List.Sublist (touchIds (unassign t j l)) (touchIds l) :=
  List.Sublist.map _ (List.filter_sublist l)

theorem touchIds_updateByTouch (t : Touch) (f : Assignment → Assignment)
    (hf : ∀ e, (f e).touch = e.touch) (l : List Assignment) :
    touchIds (updateByTouch t f l) = touchIds l := by
  induction l with
  | nil => rfl
  | cons e rest ih =>
    by_cases hid : e.touch.identifier = t.identifier
    · simp [updateByTouch, hid, touchIds, hf]
    · simp only [updateByTouch, hid, if_false]
      simp only [touchIds, List.map_cons] at ih ⊢
      rw [ih]

theorem touchIds_updateByJob (j : Job) (f : Assignment → Assignment)
    (hf : ∀ e, (f e).touch = e.touch) (l : List Assignment) :
    touchIds (updateByJob j f l) = touchIds l := by
  induction l with
  | nil => rfl
  | cons e rest ih =>
    by_cases hj : e.job = j
    · simp [updateByJob, hj, touchIds, hf]
    · simp only [updateByJob, hj, if_false]
      simp only [touchIds, List.map_cons] at ih ⊢
      rw [ih]

theorem touchIsAssigned_iff_mem (t : Touch) (l : List Assignment) :
    touchIsAssigned t l = true ↔ t.identifier ∈ touchIds l := by
  simp only [touchIsAssigned, findByTouch, List.find?_isSome, touchIds, List.mem_map,
    decide_eq_true_eq]

theorem touchIsAssigned_false_iff (t : Touch) (l : List Assignment) :
    touchIsAssigned t l = false ↔ t.identifier ∉ touchIds l := by
  rw [← Bool.not_eq_true, touchIsAssigned_iff_mem]

theorem touchIsAssigned_eq_of_ids {t : Touch} {l1 l2 : List Assignment}
    (h : touchIds l1 = touchIds l2) : touchIsAssigned t l1 = touchIsAssigned t l2 := by
  cases hb : touchIsAssigned t l2 with
  | false =>
    rw [touchIsAssigned_false_iff, h]
    exact (touchIsAssigned_false_iff t l2).mp hb
  | true =>
    rw [touchIsAssigned_iff_mem, h]
    exact (touchIsAssigned_iff_mem t l2).mp hb

theorem findByJob_job {j : Job} {l : List Assignment} {x : Assignment}
    (h : findByJob j l = some x) : x.job = j := by
  have := List.find?_some h
  simpa using this

theorem findByJob_mem {j : Job} {l : List Assignment} {x : Assignment}
    (h : findByJob j l = some x) : x ∈ l :=
  List.mem_of_find?_eq_some h

theorem findByTouch_id {t : Touch} {l : List Assignment} {x : Assignment}
    (h : findByTouch t l = some x) : x.touch.identifier = t.identifier := by
  have := List.find?_some h
  simpa using this

theorem findByTouch_mem {t : Touch} {l : List Assignment} {x : Assignment}
    (h : findByTouch t l = some x) : x ∈ l :=
  List.mem_of_find?_eq_some h

theorem findByJob_cons_of_pos {j : Job} {e : Assignment} (rest : List Assignment)
    (h : e.job = j) : findByJob j (e :: rest) = some e := by
  rw [findByJob, List.find?_cons_of_pos _ (by simp [h])]

theorem findByJob_cons_of_neg {j : Job} {e : Assignment} (rest : List Assignment)
    (h : ¬ e.job = j) : findByJob j (e :: rest) = findByJob j rest := by
  rw [findByJob, List.find?_cons_of_neg _ (by simp [h])]
  rfl

theorem findByTouch_cons_of_pos {t : Touch} {e : Assignment} (rest : List Assignment)
    (h : e.touch.identifier = t.identifier) : findByTouch t (e :: rest) = some e := by
  rw [findByTouch, List.find?_cons_of_pos _ (by simp [h])]

theorem findByTouch_cons_of_neg {t : Touch} {e : Assignment} (rest : List Assignment)
    (h : ¬ e.touch.identifier = t.identifier) : findByTouch t (e :: rest) = findByTouch t rest := by
  rw [findByTouch, List.find?_cons_of_neg _ (by simp [h])]
  rfl

theorem findByJob_unassign_ne (t : Touch) {j j2 : Job} (h : j ≠ j2) (l : List Assignment) :
    findByJob j (unassign t j2 l) = findByJob j l := by
  induction l with
  | nil => rfl
  | cons e rest ih =>
    simp only [unassign, List.filter_cons] at ih ⊢
    by_cases hej : e.job = j
    · have hej2 : ¬ e.job = j2 := by rw [hej]; exact h
      have hkeep : (!(decide (e.touch.identifier = t.identifier) && decide (e.job = j2))) = true := by
        simp [hej2]
      rw [if_pos hkeep, findByJob_cons_of_pos _ hej, findByJob_cons_of_pos _ hej]
    · rw [findByJob_cons_of_neg _ hej]
      by_cases hkeep : (!(decide (e.touch.identifier = t.identifier) && decide (e.job = j2))) = true
      · rw [if_pos hkeep, findByJob_cons_of_neg _ hej]
        exact ih
      · rw [if_neg hkeep]
        exact ih

theorem countJob_unassign_found {j : Job} {l : List Assignment} {x : Assignment}
    (hx : findByJob j l = some x) (hle : countJob j l ≤ 1) :
    countJob j (unassign x.touch j l) = 0 := by
  induction l with
  | nil => simp [findByJob] at hx
  | cons e rest ih =>
    by_cases hej : e.job = j
    · have hxe : x = e := by
        rw [findByJob, List.find?_cons_of_pos _ (by simp [hej])] at hx
        exact (Option.some_inj.mp hx).symm
      have hcnt : countJob j rest = 0 := by
        simp only [countJob, List.countP_cons] at hle
        rw [if_pos (by simp [hej])] at hle
        simp only [countJob]
        omega
      have hdropped : (!(decide (e.touch.identifier = x.touch.identifier) &&
          decide (e.job = j))) = false := by
        simp [hxe, hej]
      simp only [unassign, List.filter_cons, hdropped]
      rw [if_neg (by simp)]
      have hsub := countJob_unassign_le j x.touch j rest
      simp only [unassign] at hsub
      omega
    · have hx2 : findByJob j rest = some x := by
        rw [findByJob, List.find?_cons_of_neg _ (by simp [hej])] at hx
        exact hx
      have hle2 : countJob j rest ≤ 1 := by
        simp only [countJob, List.countP_cons] at hle
        rw [if_neg (by simp [hej])] at hle
        simpa only [countJob, Nat.add_zero] using hle
      have h0 := ih hx2 hle2
      simp only [unassign, List.filter_cons]
      by_cases hkept : (!(decide (e.touch.identifier = x.touch.identifier) &&
          decide (e.job = j))) = true
      · rw [if_pos hkept]
        simp only [countJob, List.countP_cons]
        rw [if_neg (by simp [hej])]
        simp only [unassign, countJob] at h0
        omega
      · rw [if_neg hkept]
        simp only [unassign, countJob] at h0 ⊢
        exact h0

theorem jobIsAssigned_unassign_found {j : Job} {l : List Assignment} {x : Assignment}
    (hx : findByJob j l = some x) (hle : countJob j l ≤ 1) :
    jobIsAssigned j (unassign x.touch j l) = false := by
  rw [jobIsAssigned_false_iff]
  exact countJob_unassign_found hx hle

theorem TouchUnique_unassign {l : List Assignment} (h : TouchUnique l) (t : Touch) (j : Job) :
    TouchUnique (unassign t j l) :=
  List.Nodup.sublist (touchIds_unassign_sublist t j l) h

theorem TouchUnique_assign {l : List Assignment} {e : Assignment} (h : TouchUnique l)
    (hfresh : e.touch.identifier ∉ touchIds l) : TouchUnique (assign e l) := by
  rcases assign_cases e l with hA | ⟨_, _, hA⟩
  · rw [TouchUnique, hA]
    exact h
  · rw [TouchUnique, hA, touchIds_append_one, List.nodup_append]
    refine ⟨h, List.nodup_singleton _, ?_⟩
    intro b hb hbmem
    rw [List.mem_singleton] at hbmem
    rw [hbmem] at hb
    exact hfresh hb

theorem TouchUnique_assign_free {l : List Assignment} (h : TouchUnique l)
    (e : Assignment) : TouchUnique (assign e l) := by
  rcases assign_cases e l with hA | ⟨ht, _, hA⟩
  · rw [TouchUnique, hA]
    exact h
  · exact TouchUnique_assign h ((touchIsAssigned_false_iff e.touch l).mp ht)

theorem not_mem_ids_unassign_found {l : List Assignment} {x : Assignment} {j : Job}
    (hTU : TouchUnique l) (hx : x ∈ l) (hxj : x.job = j) :
    x.touch.identifier ∉ touchIds (unassign x.touch j l) := by
  intro hmem
  rw [touchIds, List.mem_map] at hmem
  obtain ⟨e, he, heid⟩ := hmem
  rw [unassign, List.mem_filter] at he
  obtain ⟨hel, hpred⟩ := he
  have hex : e = x := List.inj_on_of_nodup_map hTU hel hx heid
  rw [hex] at hpred
  simp [hxj] at hpred

theorem assignments_updatePendingTap (now : ℚ) (s : State) :
    (updatePendingTap now s).assignments = s.assignments := by
  simp only [updatePendingTap]
  split <;> rfl

theorem pendingFirstTouch_updatePendingTap (now : ℚ) (s : State) :
    (updatePendingTap now s).pendingFirstTouch = s.pendingFirstTouch := by
  simp only [updatePendingTap]
  split <;> rfl

theorem pinch_updatePendingTap (now : ℚ) (s : State) :
    (updatePendingTap now s).pinch = s.pinch := by
  simp only [updatePendingTap]
  split <;> rfl

theorem crashed_updatePendingTap (now : ℚ) (s : State) :
    (updatePendingTap now s).crashed = s.crashed := by
  simp only [updatePendingTap]
  split <;> rfl

theorem tapIndex_updatePendingTap (now : ℚ) (s : State) :
    (updatePendingTap now s).tapIndexToWriteNextFrame = s.tapIndexToWriteNextFrame := by
  simp only [updatePendingTap]
  split <;> rfl

theorem assignments_endTapCheck (now : ℚ) (s : State) :
    (endTapCheck now s).assignments = s.assignments := by
  simp only [endTapCheck]
  split
  · split <;> rfl
  · rfl

theorem pendingFirstTouch_endTapCheck (now : ℚ) (s : State) :
    (endTapCheck now s).pendingFirstTouch = s.pendingFirstTouch := by
  simp only [endTapCheck]
  split
  · split <;> rfl
  · rfl

theorem pinch_endTapCheck (now : ℚ) (s : State) :
    (endTapCheck now s).pinch = s.pinch := by
  simp only [endTapCheck]
  split
  · split <;> rfl
  · rfl

theorem crashed_endTapCheck (now : ℚ) (s : State) :
    (endTapCheck now s).crashed = s.crashed := by
  simp only [endTapCheck]
  split
  · split <;> rfl
  · rfl

theorem invA_congr {s1 s2 : State} (h : s2.assignments = s1.assignments) (hi : InvA s1) :
    InvA s2 := by
  rw [InvA, h]
  exact hi

theorem invA_of_assignments {s2 : State} {l : List Assignment} (h : s2.assignments = l)
    (hTU : TouchUnique l) (hfp : countJob .firstPincher l ≤ 1)
    (hb : JobBounds l) (hs : SecondHasFirst l) : InvA s2 := by
  rw [InvA, h]
  exact ⟨hTU, hfp, hb, hs⟩

theorem invA_assign_nonpinch {l : List Assignment} {e : Assignment}
    (hTU : TouchUnique l) (hfp : countJob .firstPincher l ≤ 1)
    (hb : JobBounds l) (hs : SecondHasFirst l)
    (hcase : (e.job = .moveCursor ∧ jobIsAssigned .moveCursor l = false) ∨
      (e.job = .moveCamera ∧ jobIsAssigned .moveCamera l = false) ∨
      e.job = .firstPincher) :
    TouchUnique (assign e l) ∧ countJob .firstPincher (assign e l) ≤ 1 ∧
      JobBounds (assign e l) ∧ SecondHasFirst (assign e l) := by
  obtain ⟨hcu, hca, hse⟩ := hb
  refine ⟨TouchUnique_assign_free hTU e, countJob_assign_le_one _ _ _ hfp,
    ⟨countJob_assign_le_one _ _ _ hcu, countJob_assign_le_one _ _ _ hca,
      countJob_assign_le_one _ _ _ hse⟩, ?_⟩
  rcases assign_cases e l with hA | ⟨_, _, hA⟩
  · rw [hA]
    exact hs
  · rw [hA]
    intro h2
    rw [jobIsAssigned_append_one] at h2 ⊢
    rcases hcase with ⟨hj, _⟩ | ⟨hj, _⟩ | hj
    · simp [hj] at h2
      simp [hj, hs h2]
    · simp [hj] at h2
      simp [hj, hs h2]
    · simp [hj]

theorem invA_assign_second {l : List Assignment} {e : Assignment}
    (hTU : TouchUnique l) (hfp : countJob .firstPincher l ≤ 1)
    (hb : JobBounds l) ( _he : e.job = .secondPincher)
    ( _hsec0 : jobIsAssigned .secondPincher l = false)
    (hfst : jobIsAssigned .firstPincher l = true) :
    TouchUnique (assign e l) ∧ countJob .firstPincher (assign e l) ≤ 1 ∧
      JobBounds (assign e l) ∧ SecondHasFirst (assign e l) := by
  obtain ⟨hcu, hca, hse⟩ := hb
  refine ⟨TouchUnique_assign_free hTU e, countJob_assign_le_one _ _ _ hfp,
    ⟨countJob_assign_le_one _ _ _ hcu, countJob_assign_le_one _ _ _ hca,
      countJob_assign_le_one _ _ _ hse⟩, ?_⟩
  intro _
  exact jobIsAssigned_assign_of_pos hfst e

theorem countJob_unassign_self_mem {j : Job} {l : List Assignment} {x : Assignment}
    (hx : x ∈ l) (hxj : x.job = j) (hle : countJob j l ≤ 1) :
    countJob j (unassign x.touch j l) = 0 := by
  induction l with
  | nil => cases hx
  | cons e rest ih =>
    rcases List.mem_cons.mp hx with hxe | hxr
    · have hej : e.job = j := by rw [← hxe]; exact hxj
      have hcnt : countJob j rest = 0 := by
        simp only [countJob, List.countP_cons] at hle
        rw [if_pos (by simp [hej])] at hle
        simp only [countJob]
        omega
      have hdropped : (!(decide (e.touch.identifier = x.touch.identifier) &&
          decide (e.job = j))) = false := by
        simp [← hxe, hxj]
      simp only [unassign, List.filter_cons, hdropped]
      rw [if_neg (by simp)]
      have hsub := countJob_unassign_le j x.touch j rest
      simp only [unassign] at hsub
      omega
    · by_cases hej : e.job = j
      · exfalso
        have h1 : 0 < countJob j rest := by
          rw [countJob, List.countP_pos_iff]
          exact ⟨x, hxr, by simp [hxj]⟩
        simp only [countJob, List.countP_cons] at hle
        rw [if_pos (by simp [hej])] at hle
        simp only [countJob] at h1
        omega
      · have hle2 : countJob j rest ≤ 1 := by
          simp only [countJob, List.countP_cons] at hle
          rw [if_neg (by simp [hej])] at hle
          simpa only [countJob, Nat.add_zero] using hle
        have h0 := ih hxr hle2
        simp only [unassign, List.filter_cons]
        by_cases hkept : (!(decide (e.touch.identifier = x.touch.identifier) &&
            decide (e.job = j))) = true
        · rw [if_pos hkept]
          simp only [countJob, List.countP_cons]
          rw [if_neg (by simp [hej])]
          simp only [unassign, countJob] at h0
          omega
        · rw [if_neg hkept]
          simp only [unassign, countJob] at h0 ⊢
          exact h0

theorem invA_of_counts_eq {l1 l2 : List Assignment}
    (hids : touchIds l1 = touchIds l2)
    (h : ∀ j, countJob j l1 = countJob j l2)
    (hi : TouchUnique l2 ∧ countJob .firstPincher l2 ≤ 1 ∧
      JobBounds l2 ∧ SecondHasFirst l2) :
    TouchUnique l1 ∧ countJob .firstPincher l1 ≤ 1 ∧
      JobBounds l1 ∧ SecondHasFirst l1 := by
  obtain ⟨hTU, hfp, ⟨c1, c2, c3⟩, hs⟩ := hi
  refine ⟨?_, ?_, ⟨?_, ?_, ?_⟩, ?_⟩
  · rw [TouchUnique, hids]; exact hTU
  · rw [h]; exact hfp
  · rw [h]; exact c1
  · rw [h]; exact c2
  · rw [h]; exact c3
  · intro h2
    rw [jobIsAssigned_eq_of_countJob_eq (h .secondPincher)] at h2
    rw [jobIsAssigned_eq_of_countJob_eq (h .firstPincher)]
    exact hs h2

theorem invA_resolveTouchStart (ext : Ext) (interactable allowMove : Bool) (touch : Touch)
    {s : State} (hi : InvA s) : InvA (resolveTouchStart ext interactable allowMove touch s) := by
  obtain ⟨hTU, hfp0, hb, hs⟩ := hi
  simp only [resolveTouchStart]
  by_cases h1 : (!jobIsAssigned .firstPincher s.assignments &&
      !jobIsAssigned .moveCursor s.assignments && (allowMove || interactable)) = true
  · rw [if_pos h1]
    have hcu : jobIsAssigned .moveCursor s.assignments = false := by
      simp only [Bool.and_eq_true, Bool.not_eq_true'] at h1
      exact h1.1.2
    exact invA_assign_nonpinch hTU hfp0 hb hs (Or.inl ⟨rfl, hcu⟩)
  · rw [if_neg h1]
    by_cases h2 : (!jobIsAssigned .firstPincher s.assignments &&
        !jobIsAssigned .moveCamera s.assignments) = true
    · rw [if_pos h2]
      have hca : jobIsAssigned .moveCamera s.assignments = false := by
        simp only [Bool.and_eq_true, Bool.not_eq_true'] at h2
        exact h2.2
      exact invA_assign_nonpinch hTU hfp0 hb hs (Or.inr (Or.inl ⟨rfl, hca⟩))
    · rw [if_neg h2]
      by_cases h3 : (!jobIsAssigned .secondPincher s.assignments) = true
      · rw [if_pos h3]
        have hsec0 : jobIsAssigned .secondPincher s.assignments = false := by
          simpa only [Bool.not_eq_true'] using h3
        by_cases hfp : jobIsAssigned .firstPincher s.assignments = true
        · rw [if_pos hfp]
          obtain ⟨f, hf⟩ := Option.isSome_iff_exists.mp hfp
          rw [hf]
          simp only [Option.map_some']
          exact invA_assign_second hTU hfp0 hb rfl hsec0 hfp
        · rw [if_neg hfp]
          have hca : jobIsAssigned .moveCamera s.assignments = true := by
            cases hc : jobIsAssigned .moveCamera s.assignments with
            | false =>
              exfalso
              apply h2
              simp only [Bool.not_eq_true] at hfp
              simp [hfp, hc]
            | true => rfl
          obtain ⟨cm, hcm⟩ := Option.isSome_iff_exists.mp hca
          rw [hcm]
          simp only [Option.map_some']
          have hcmjob : cm.job = .moveCamera := findByJob_job hcm
          rw [hcmjob]
          obtain ⟨hcu1, hca1, hse1⟩ := hb
          rw [Bool.not_eq_true] at hfp
          have hfpu : jobIsAssigned .firstPincher
              (unassign cm.touch .moveCamera s.assignments) = false := by
            rw [jobIsAssigned_unassign_ne cm.touch (by decide) s.assignments]
            exact hfp
          have hTUu : TouchUnique (unassign cm.touch .moveCamera s.assignments) :=
            TouchUnique_unassign hTU cm.touch .moveCamera
          have hftouch : touchIsAssigned cm.touch
              (unassign cm.touch .moveCamera s.assignments) = false := by
            rw [touchIsAssigned_false_iff]
            exact not_mem_ids_unassign_found hTU (findByJob_mem hcm) hcmjob
          have happ : assign
              { touch := cm.touch, job := .firstPincher,
                clientX := cm.clientX, clientY := cm.clientY }
              (unassign cm.touch .moveCamera s.assignments) =
            unassign cm.touch .moveCamera s.assignments ++
              [{ touch := cm.touch, job := .firstPincher,
                 clientX := cm.clientX, clientY := cm.clientY }] :=
            assign_eq_append hftouch hfpu
          have hfirstok : jobIsAssigned .firstPincher
              (assign { touch := cm.touch, job := .firstPincher, clientX := cm.clientX, clientY := cm.clientY } (unassign cm.touch .moveCamera s.assignments)) = true := by
            rw [happ, jobIsAssigned_append_one]
            simp
          have hc1 := countJob_unassign_le .moveCursor cm.touch .moveCamera s.assignments
          have hc2 := countJob_unassign_le .moveCamera cm.touch .moveCamera s.assignments
          have hc3 := countJob_unassign_le .secondPincher cm.touch .moveCamera s.assignments
          have hc4 := countJob_unassign_le .firstPincher cm.touch .moveCamera s.assignments
          refine ⟨?_, ?_, ⟨?_, ?_, ?_⟩, ?_⟩
          · exact TouchUnique_assign_free (TouchUnique_assign_free hTUu _) _
          · apply countJob_assign_le_one
            apply countJob_assign_le_one
            omega
          · apply countJob_assign_le_one
            apply countJob_assign_le_one
            omega
          · apply countJob_assign_le_one
            apply countJob_assign_le_one
            omega
          · apply countJob_assign_le_one
            apply countJob_assign_le_one
            omega
          · intro _
            exact jobIsAssigned_assign_of_pos hfirstok _
      · rw [if_neg h3]
        exact ⟨hTU, hfp0, hb, hs⟩

theorem invA_processTouchStart (ext : Ext) (interactable : Bool) (now : ℚ)
    (allowMove : Bool) (touch : Touch) {s : State} (hi : InvA s) :
    InvA (processTouchStart ext interactable now allowMove touch s) := by
  rw [processTouchStart]
  by_cases hg : touchIsAssigned touch s.assignments = true
  · rw [if_pos hg]
    exact hi
  · rw [if_neg hg]
    exact invA_congr (assignments_updatePendingTap _ _)
      (invA_resolveTouchStart ext interactable allowMove touch hi)

theorem invA_start (ext : Ext) (shouldDelay interactable : Bool) (now : ℚ) (touch : Touch)
    {s : State} (hi : InvA s) : InvA (start ext shouldDelay interactable now touch s) := by
  obtain ⟨hTU, hfp, hb, hs⟩ := hi
  cases hps : s.pendingFirstTouch with
  | some pending =>
    simp only [start, hps]
    apply invA_processTouchStart
    exact invA_assign_nonpinch hTU hfp hb hs (Or.inr (Or.inr rfl))
  | none =>
    simp only [start, hps]
    by_cases hd : shouldDelay = true
    · rw [if_pos hd]
      exact ⟨hTU, hfp, hb, hs⟩
    · rw [if_neg hd]
      exact invA_processTouchStart ext interactable now false touch ⟨hTU, hfp, hb, hs⟩

theorem invA_timerFire (ext : Ext) (interactable : Bool) (now : ℚ) {s : State}
    (hi : InvA s) : InvA (timerFire ext interactable now s) := by
  cases hps : s.pendingFirstTouch with
  | some pending =>
    simp only [timerFire, hps]
    exact invA_congr rfl (invA_processTouchStart ext interactable now false pending hi)
  | none =>
    simp only [timerFire, hps]
    exact hi

theorem invA_moveCore (ext : Ext) (touch : Touch) {s : State} (hi : InvA s) :
    InvA (moveCore ext touch s) := by
  have hc : ∀ j, countJob j (updateByTouch touch
      (fun e => { e with clientX := touch.clientX, clientY := touch.clientY })
      s.assignments) = countJob j s.assignments :=
    fun j => countJob_updateByTouch j touch
      (fun e => { e with clientX := touch.clientX, clientY := touch.clientY })
      (fun e => rfl) s.assignments
  have hids : touchIds (updateByTouch touch
      (fun e => { e with clientX := touch.clientX, clientY := touch.clientY })
      s.assignments) = touchIds s.assignments :=
    touchIds_updateByTouch touch
      (fun e => { e with clientX := touch.clientX, clientY := touch.clientY })
      (fun e => rfl) s.assignments
  simp only [moveCore]
  by_cases hg : (!touchIsAssigned touch s.assignments) = true
  · rw [if_pos hg]
    exact hi
  · rw [if_neg hg]
    split
    · exact hi
    · split
      · exact invA_of_counts_eq
          (touchIds_updateByTouch touch
            (fun e => { e with cursorPose := ext.proj touch.clientX touch.clientY })
            (fun e => rfl) s.assignments)
          (fun j => countJob_updateByTouch j touch
            (fun e => { e with cursorPose := ext.proj touch.clientX touch.clientY })
            (fun e => rfl) s.assignments) hi
      · exact invA_of_counts_eq
          (touchIds_updateByTouch touch
            (fun e =>
              { e with
                delta := (e.delta.1 + (touch.clientX - e.clientX),
                          e.delta.2 + (touch.clientY - e.clientY)),
                clientX := touch.clientX, clientY := touch.clientY })
            (fun e => rfl) s.assignments)
          (fun j => countJob_updateByTouch j touch
            (fun e =>
              { e with
                delta := (e.delta.1 + (touch.clientX - e.clientX),
                          e.delta.2 + (touch.clientY - e.clientY)),
                clientX := touch.clientX, clientY := touch.clientY })
            (fun e => rfl) s.assignments) hi
      · split
        · split
          · exact invA_of_counts_eq hids hc hi
          · exact invA_of_counts_eq hids hc hi
        · exact invA_of_counts_eq hids hc hi
      · split
        · split
          · exact invA_of_counts_eq hids hc hi
          · exact invA_of_counts_eq hids hc hi
        · exact invA_of_counts_eq hids hc hi

theorem invA_move (ext : Ext) (interactable : Bool) (now : ℚ) (touch : Touch) {s : State}
    (hi : InvA s) : InvA (move ext interactable now touch s) := by
  cases hps : s.pendingFirstTouch with
  | some pending =>
    simp only [move, hps]
    by_cases hid : pending.identifier = touch.identifier
    · rw [if_pos hid]
      exact invA_congr rfl (invA_processTouchStart ext interactable now false pending hi)
    · rw [if_neg hid]
      exact invA_moveCore ext touch hi
  | none =>
    simp only [move, hps]
    exact invA_moveCore ext touch hi

theorem invA_endFirstPincher (assignment : Assignment) {s : State} (hi : InvA s) :
    InvA (endFirstPincher assignment s) := by
  obtain ⟨hTU, hfp, ⟨hcu, hca, hse⟩, hs⟩ := hi
  have hcu1 := countJob_unassign_le .moveCursor assignment.touch assignment.job s.assignments
  have hca1 := countJob_unassign_le .moveCamera assignment.touch assignment.job s.assignments
  have hse1 := countJob_unassign_le .secondPincher assignment.touch assignment.job s.assignments
  have hfp1 := countJob_unassign_le .firstPincher assignment.touch assignment.job s.assignments
  simp only [endFirstPincher]
  split
  · rename_i hsec
    split
    · rename_i hnone
      exfalso
      simp [jobIsAssigned, hnone] at hsec
    · rename_i second hsnd
      have hsndjob : second.job = .secondPincher := findByJob_job hsnd
      have hzero : countJob .secondPincher (unassign second.touch second.job
          (unassign assignment.touch assignment.job s.assignments)) = 0 := by
        rw [hsndjob]
        apply countJob_unassign_found hsnd
        omega
      have hcu2 := countJob_unassign_le .moveCursor second.touch second.job
        (unassign assignment.touch assignment.job s.assignments)
      have hca2 := countJob_unassign_le .moveCamera second.touch second.job
        (unassign assignment.touch assignment.job s.assignments)
      have hfp2 := countJob_unassign_le .firstPincher second.touch second.job
        (unassign assignment.touch assignment.job s.assignments)
      split
      · refine invA_of_assignments (by dsimp only) ?_ ?_ ?_ ?_
        · exact TouchUnique_assign_free
            (TouchUnique_unassign (TouchUnique_unassign hTU _ _) _ _) _
        · apply countJob_assign_le_one
          omega
        · refine ⟨?_, ?_, ?_⟩ <;> (apply countJob_assign_le_one; omega)
        · intro h2
          have hh : jobIsAssigned .secondPincher
              (assign { touch := second.touch, job := .firstPincher, clientX := second.clientX, clientY := second.clientY } (unassign second.touch second.job (unassign assignment.touch assignment.job s.assignments))) = false :=
            jobIsAssigned_assign_of_ne ((jobIsAssigned_false_iff _ _).mpr hzero) (by simp)
          rw [hh] at h2
          exact Bool.noConfusion h2
      · rename_i hcam
        rw [Bool.not_eq_true, jobIsAssigned_false_iff] at hcam
        refine invA_of_assignments (by dsimp only) ?_ ?_ ?_ ?_
        · exact TouchUnique_assign_free
            (TouchUnique_unassign (TouchUnique_unassign hTU _ _) _ _) _
        · apply countJob_assign_le_one
          omega
        · refine ⟨?_, ?_, ?_⟩ <;> (apply countJob_assign_le_one; omega)
        · intro h2
          have hh : jobIsAssigned .secondPincher
              (assign { touch := second.touch, job := .moveCamera, clientX := second.clientX, clientY := second.clientY, delta := (0, 0) } (unassign second.touch second.job (unassign assignment.touch assignment.job s.assignments))) = false :=
            jobIsAssigned_assign_of_ne ((jobIsAssigned_false_iff _ _).mpr hzero) (by simp)
          rw [hh] at h2
          exact Bool.noConfusion h2
  · rename_i hsec
    rw [Bool.not_eq_true, jobIsAssigned_false_iff] at hsec
    refine invA_of_assignments (by dsimp only) ?_ ?_ ?_ ?_
    · exact TouchUnique_unassign hTU _ _
    · omega
    · exact ⟨by omega, by omega, by omega⟩
    · intro h2
      exfalso
      rw [jobIsAssigned_iff_pos] at h2
      omega

theorem invA_endSecondPincher (assignment : Assignment) {s : State}
    (hmem : assignment ∈ s.assignments) (hjob : assignment.job = .secondPincher)
    (hi : InvA s) : InvA (endSecondPincher assignment s) := by
  obtain ⟨hTU, hfp, ⟨hcu, hca, hse⟩, hs⟩ := hi
  have hzero : countJob .secondPincher
      (unassign assignment.touch assignment.job s.assignments) = 0 := by
    rw [hjob]
    exact countJob_unassign_self_mem hmem hjob hse
  have hcu1 := countJob_unassign_le .moveCursor assignment.touch assignment.job s.assignments
  have hca1 := countJob_unassign_le .moveCamera assignment.touch assignment.job s.assignments
  have hfp1 := countJob_unassign_le .firstPincher assignment.touch assignment.job s.assignments
  simp only [endSecondPincher]
  split
  · rename_i hcond
    simp only [Bool.and_eq_true, Bool.not_eq_true'] at hcond
    obtain ⟨hfst, hcam⟩ := hcond
    rw [jobIsAssigned_false_iff] at hcam
    split
    · rename_i hnone
      exfalso
      simp [jobIsAssigned, hnone] at hfst
    · rename_i first hfstfind
      have hfstjob : first.job = .firstPincher := findByJob_job hfstfind
      have hcu2 := countJob_unassign_le .moveCursor first.touch first.job
        (unassign assignment.touch assignment.job s.assignments)
      have hca2 := countJob_unassign_le .moveCamera first.touch first.job
        (unassign assignment.touch assignment.job s.assignments)
      have hse2 := countJob_unassign_le .secondPincher first.touch first.job
        (unassign assignment.touch assignment.job s.assignments)
      have hfp2 := countJob_unassign_le .firstPincher first.touch first.job
        (unassign assignment.touch assignment.job s.assignments)
      have hca3 : countJob .moveCamera (unassign first.touch first.job
          (unassign assignment.touch assignment.job s.assignments)) =
          countJob .moveCamera (unassign assignment.touch assignment.job s.assignments) := by
        rw [hfstjob]
        exact countJob_unassign_ne first.touch (by simp) _
      refine invA_of_assignments (by dsimp only) ?_ ?_ ?_ ?_
      · exact TouchUnique_assign_free
          (TouchUnique_unassign (TouchUnique_unassign hTU _ _) _ _) _
      · apply countJob_assign_le_one
        omega
      · refine ⟨?_, ?_, ?_⟩ <;> (apply countJob_assign_le_one; omega)
      · intro h2
        have hh : jobIsAssigned .secondPincher
            (assign { touch := first.touch, job := .moveCamera, clientX := first.clientX, clientY := first.clientY, delta := (0, 0) } (unassign first.touch first.job (unassign assignment.touch assignment.job s.assignments))) = false :=
          jobIsAssigned_assign_of_ne ((jobIsAssigned_false_iff _ _).mpr (by omega)) (by simp)
        rw [hh] at h2
        exact Bool.noConfusion h2
  · refine invA_of_assignments (by dsimp only) ?_ ?_ ?_ ?_
    · exact TouchUnique_unassign hTU _ _
    · omega
    · exact ⟨by omega, by omega, by omega⟩
    · intro h2
      exfalso
      rw [jobIsAssigned_iff_pos] at h2
      omega

theorem invA_endCore (now : ℚ) (touch : Touch) {s : State} (hi : InvA s) :
    InvA (endCore now touch s) := by
  simp only [endCore]
  apply invA_congr (assignments_endTapCheck _ _)
  by_cases hg : (!touchIsAssigned touch s.assignments) = true
  · rw [if_pos hg]
    exact hi
  · rw [if_neg hg]
    split
    · exact hi
    · rename_i assignment hfind
      obtain ⟨hTU, hfp, ⟨hcu, hca, hse⟩, hs⟩ := hi
      have hjob := findByTouch_mem hfind
      split
      all_goals rename_i hjobeq
      · have hcu1 := countJob_unassign_le .moveCursor assignment.touch assignment.job s.assignments
        have hca1 : countJob .moveCamera (unassign assignment.touch assignment.job s.assignments) =
              countJob .moveCamera s.assignments :=
            countJob_unassign_ne assignment.touch (by rw [hjobeq]; simp) s.assignments
        have hse1 : countJob .secondPincher (unassign assignment.touch assignment.job s.assignments) =
              countJob .secondPincher s.assignments :=
            countJob_unassign_ne assignment.touch (by rw [hjobeq]; simp) s.assignments
        have hfp1 : countJob .firstPincher (unassign assignment.touch assignment.job s.assignments) =
              countJob .firstPincher s.assignments :=
            countJob_unassign_ne assignment.touch (by rw [hjobeq]; simp) s.assignments
        refine invA_of_assignments (by dsimp only) ?_ ?_ ?_ ?_
        · exact TouchUnique_unassign hTU _ _
        · omega
        · exact ⟨by omega, by omega, by omega⟩
        · intro h2
          rw [jobIsAssigned_eq_of_countJob_eq hse1] at h2
          rw [jobIsAssigned_eq_of_countJob_eq hfp1]
          exact hs h2
      · have hca1 := countJob_unassign_le .moveCamera assignment.touch assignment.job s.assignments
        have hcu1 : countJob .moveCursor (unassign assignment.touch assignment.job s.assignments) =
              countJob .moveCursor s.assignments :=
            countJob_unassign_ne assignment.touch (by rw [hjobeq]; simp) s.assignments
        have hse1 : countJob .secondPincher (unassign assignment.touch assignment.job s.assignments) =
              countJob .secondPincher s.assignments :=
            countJob_unassign_ne assignment.touch (by rw [hjobeq]; simp) s.assignments
        have hfp1 : countJob .firstPincher (unassign assignment.touch assignment.job s.assignments) =
              countJob .firstPincher s.assignments :=
            countJob_unassign_ne assignment.touch (by rw [hjobeq]; simp) s.assignments
        refine invA_of_assignments (by dsimp only) ?_ ?_ ?_ ?_
        · exact TouchUnique_unassign hTU _ _
        · omega
        · exact ⟨by omega, by omega, by omega⟩
        · intro h2
          rw [jobIsAssigned_eq_of_countJob_eq hse1] at h2
          rw [jobIsAssigned_eq_of_countJob_eq hfp1]
          exact hs h2
      · exact invA_endFirstPincher assignment ⟨hTU, hfp, ⟨hcu, hca, hse⟩, hs⟩
      · exact invA_endSecondPincher assignment hjob hjobeq ⟨hTU, hfp, ⟨hcu, hca, hse⟩, hs⟩

theorem invA_endTouch (ext : Ext) (now : ℚ) (touch : Touch) {s : State} (hi : InvA s) :
    InvA (endTouch ext now touch s) := by
  cases hps : s.pendingFirstTouch with
  | some pending =>
    simp only [endTouch, hps]
    by_cases hid : pending.identifier = touch.identifier
    · rw [if_pos hid]
      exact invA_congr rfl (invA_processTouchStart ext false now true pending hi)
    · rw [if_neg hid]
      exact invA_endCore now touch hi
  | none =>
    simp only [endTouch, hps]
    exact invA_endCore now touch hi

theorem invA_applyEv (ext : Ext) (e : Ev) {s : State} (hi : InvA s) :
    InvA (applyEv ext e s) := by
  cases e with
  | startEv shouldDelay interactable now touch => exact invA_start ext _ _ _ _ hi
  | moveEv interactable now touch => exact invA_move ext _ _ _ hi
  | endEv now touch => exact invA_endTouch ext _ _ hi

theorem invA_writePrelude {s : State} (hi : InvA s) : InvA (writePrelude s) := by
  simp only [writePrelude]
  split
  · exact invA_of_counts_eq
      (touchIds_updateByJob .moveCamera (fun e => { e with delta := (0, 0) })
        (fun e => rfl) s.assignments)
      (fun j => countJob_updateByJob j .moveCamera (fun e => { e with delta := (0, 0) })
        (fun e => rfl) s.assignments) hi
  · exact invA_congr rfl hi

theorem invA_foldl (ext : Ext) (evs : List Ev) {s : State} (hi : InvA s) :
    InvA (evs.foldl (fun st e => applyEv ext e st) s) := by
  induction evs generalizing s with
  | nil => exact hi
  | cons e rest ih => exact ih (invA_applyEv ext e hi)

theorem invA_write (ext : Ext) (evs : List Ev) {s : State} (hi : InvA s) :
    InvA (write ext evs s).1 := by
  have h2 := invA_foldl ext evs (invA_writePrelude hi)
  have h3 := invA_of_counts_eq
    (touchIds_updateByJob .moveCursor (fun e => { e with isFirstFrame := false })
      (fun e => rfl)
      ((evs.foldl (fun st e => applyEv ext e st) (writePrelude s)).assignments))
    (fun j => countJob_updateByJob j .moveCursor (fun e => { e with isFirstFrame := false })
      (fun e => rfl)
      ((evs.foldl (fun st e => applyEv ext e st) (writePrelude s)).assignments)) h2
  simp only [write]
  split
  · exact invA_of_assignments (by dsimp only) h3.1 h3.2.1 h3.2.2.1 h3.2.2.2
  · exact invA_of_assignments (by dsimp only) h2.1 h2.2.1 h2.2.2.1 h2.2.2.2

theorem invA_applyOp (ext : Ext) (op : Op) {s : State} (hi : InvA s) :
    InvA (applyOp ext op s) := by
  cases op with
  | startOp shouldDelay interactable now touch => exact invA_start ext _ _ _ _ hi
  | moveOp interactable now touch => exact invA_move ext _ _ _ hi
  | endOp now touch => exact invA_endTouch ext _ _ hi
  | timerOp interactable now => exact invA_timerFire ext _ _ hi
  | writeOp evs => exact invA_write ext evs hi

theorem invA_initState : InvA initState := by
  refine ⟨?_, ?_, ?_, ?_⟩
  · simp [TouchUnique, touchIds, initState]
  · simp [countJob, initState]
  · exact ⟨by simp [countJob, initState], by simp [countJob, initState],
      by simp [countJob, initState]⟩
  · intro h2
    simp [jobIsAssigned, findByJob, initState] at h2

theorem invA_run (ext : Ext) (ops : List Op) : InvA (run ext ops) := by
  rw [run]
  have h : ∀ (l : List Op) (s : State), InvA s →
      InvA (l.foldl (fun s op => applyOp ext op s) s) := by
    intro l
    induction l with
    | nil => intro s hi; exact hi
    | cons op rest ih =>
      intro s hi
      exact ih _ (invA_applyOp ext op hi)
  exact h ops initState invA_initState

theorem pendingFirstTouch_resolveTouchStart (ext : Ext) (interactable allowMove : Bool)
    (touch : Touch) (s : State) :
    (resolveTouchStart ext interactable allowMove touch s).pendingFirstTouch =
      s.pendingFirstTouch := by
  simp only [resolveTouchStart]
  split
  · rfl
  · split
    · rfl
    · split
      · split
        · rfl
        · rfl
      · rfl

theorem pendingFirstTouch_processTouchStart (ext : Ext) (interactable : Bool) (now : ℚ)
    (allowMove : Bool) (touch : Touch) (s : State) :
    (processTouchStart ext interactable now allowMove touch s).pendingFirstTouch =
      s.pendingFirstTouch := by
  rw [processTouchStart]
  split
  · rfl
  · rw [pendingFirstTouch_updatePendingTap, pendingFirstTouch_resolveTouchStart]

theorem touchIds_resolveTouchStart_subset (ext : Ext) (interactable allowMove : Bool)
    (touch : Touch) (s : State) {i : ℕ}
    (hi : i ∈ touchIds (resolveTouchStart ext interactable allowMove touch s).assignments) :
    i ∈ touchIds s.assignments ∨ i = touch.identifier := by
  simp only [resolveTouchStart] at hi
  split at hi
  · rcases mem_touchIds_assign hi with h | h
    · exact Or.inl h
    · exact Or.inr h
  · split at hi
    · rcases mem_touchIds_assign hi with h | h
      · exact Or.inl h
      · exact Or.inr h
    · split at hi
      · by_cases hfp : jobIsAssigned .firstPincher s.assignments = true
        · rw [if_pos hfp] at hi
          cases hfind : findByJob .firstPincher s.assignments with
          | none =>
            rw [hfind] at hi
            simp only [Option.map_none'] at hi
            exact Or.inl hi
          | some f =>
            rw [hfind] at hi
            simp only [Option.map_some'] at hi
            rcases mem_touchIds_assign hi with h | h
            · exact Or.inl h
            · exact Or.inr h
        · rw [if_neg hfp] at hi
          cases hfind : findByJob .moveCamera s.assignments with
          | none =>
            rw [hfind] at hi
            simp only [Option.map_none'] at hi
            exact Or.inl hi
          | some cm =>
            rw [hfind] at hi
            simp only [Option.map_some'] at hi
            have hcm := findByJob_mem hfind
            rcases mem_touchIds_assign hi with h | h
            · rcases mem_touchIds_assign h with h2 | h2
              · exact Or.inl (List.Sublist.mem h2 (touchIds_unassign_sublist _ _ _))
              · rw [h2]
                exact Or.inl (List.mem_map.mpr ⟨cm, hcm, rfl⟩)
            · exact Or.inr h
      · exact Or.inl hi

theorem touchIds_processTouchStart_subset (ext : Ext) (interactable : Bool) (now : ℚ)
    (allowMove : Bool) (touch : Touch) (s : State) {i : ℕ}
    (hi : i ∈ touchIds (processTouchStart ext interactable now allowMove touch s).assignments) :
    i ∈ touchIds s.assignments ∨ i = touch.identifier := by
  rw [processTouchStart] at hi
  split at hi
  · exact Or.inl hi
  · rw [assignments_updatePendingTap] at hi
    exact touchIds_resolveTouchStart_subset ext interactable allowMove touch s hi

theorem TU_resolveTouchStart (ext : Ext) (interactable allowMove : Bool) (touch : Touch)
    {s : State} (hfresh : touchIsAssigned touch s.assignments = false)
    (hTU : TouchUnique s.assignments) :
    TouchUnique (resolveTouchStart ext interactable allowMove touch s).assignments := by
  rw [touchIsAssigned_false_iff] at hfresh
  simp only [resolveTouchStart]
  split
  · exact TouchUnique_assign hTU hfresh
  · split
    · exact TouchUnique_assign hTU hfresh
    · split
      · by_cases hfp : jobIsAssigned .firstPincher s.assignments = true
        · rw [if_pos hfp]
          cases hfind : findByJob .firstPincher s.assignments with
          | none =>
            simp only [Option.map_none']
            exact hTU
          | some f =>
            simp only [Option.map_some']
            exact TouchUnique_assign hTU hfresh
        · rw [if_neg hfp]
          cases hfind : findByJob .moveCamera s.assignments with
          | none =>
            simp only [Option.map_none']
            exact hTU
          | some cm =>
            simp only [Option.map_some']
            have hcm := findByJob_mem hfind
            have hcmjob : cm.job = .moveCamera := findByJob_job hfind
            have hTU1 : TouchUnique (unassign cm.touch cm.job s.assignments) :=
              TouchUnique_unassign hTU cm.touch cm.job
            have hfirstfresh : cm.touch.identifier ∉
                touchIds (unassign cm.touch cm.job s.assignments) := by
              have h5 := not_mem_ids_unassign_found hTU hcm hcmjob
              rw [← hcmjob] at h5
              exact h5
            have hTU2 : TouchUnique (assign
                { touch := cm.touch, job := .firstPincher,
                  clientX := cm.clientX, clientY := cm.clientY }
                (unassign cm.touch cm.job s.assignments)) :=
              TouchUnique_assign hTU1 hfirstfresh
            apply TouchUnique_assign hTU2
            intro hmem
            rcases mem_touchIds_assign hmem with h | h
            · have h6 := List.Sublist.mem h (touchIds_unassign_sublist cm.touch cm.job s.assignments)
              exact hfresh h6
            · rw [h] at hfresh
              exact hfresh (List.mem_map.mpr ⟨cm, hcm, rfl⟩)
      · exact hTU

theorem TU_processTouchStart (ext : Ext) (interactable : Bool) (now : ℚ) (allowMove : Bool)
    (touch : Touch) {s : State} (hTU : TouchUnique s.assignments) :
    TouchUnique (processTouchStart ext interactable now allowMove touch s).assignments := by
  rw [processTouchStart]
  split
  · exact hTU
  · rename_i hfresh
    rw [Bool.not_eq_true] at hfresh
    rw [assignments_updatePendingTap]
    exact TU_resolveTouchStart ext interactable allowMove touch hfresh hTU

theorem touchIds_moveCore (ext : Ext) (touch : Touch) (s : State) :
    touchIds (moveCore ext touch s).assignments = touchIds s.assignments := by
  simp only [moveCore]
  split
  · rfl
  · split
    · rfl
    · split
      · exact touchIds_updateByTouch touch (fun e => { e with cursorPose := ext.proj touch.clientX touch.clientY }) (fun e => rfl) s.assignments
      · exact touchIds_updateByTouch touch (fun e => { e with delta := (e.delta.1 + (touch.clientX - e.clientX), e.delta.2 + (touch.clientY - e.clientY)), clientX := touch.clientX, clientY := touch.clientY }) (fun e => rfl) s.assignments
      · split
        · split
          · exact touchIds_updateByTouch touch (fun e => { e with clientX := touch.clientX, clientY := touch.clientY }) (fun e => rfl) s.assignments
          · exact touchIds_updateByTouch touch (fun e => { e with clientX := touch.clientX, clientY := touch.clientY }) (fun e => rfl) s.assignments
        · exact touchIds_updateByTouch touch (fun e => { e with clientX := touch.clientX, clientY := touch.clientY }) (fun e => rfl) s.assignments
      · split
        · split
          · exact touchIds_updateByTouch touch (fun e => { e with clientX := touch.clientX, clientY := touch.clientY }) (fun e => rfl) s.assignments
          · exact touchIds_updateByTouch touch (fun e => { e with clientX := touch.clientX, clientY := touch.clientY }) (fun e => rfl) s.assignments
        · exact touchIds_updateByTouch touch (fun e => { e with clientX := touch.clientX, clientY := touch.clientY }) (fun e => rfl) s.assignments

theorem pendingFirstTouch_moveCore (ext : Ext) (touch : Touch) (s : State) :
    (moveCore ext touch s).pendingFirstTouch = s.pendingFirstTouch := by
  simp only [moveCore]
  split
  · rfl
  · split
    · rfl
    · split
      · rfl
      · rfl
      · split
        · split
          · rfl
          · rfl
        · rfl
      · split
        · split
          · rfl
          · rfl
        · rfl

theorem TU_endFirstPincher (assignment : Assignment) {s : State}
    (hTU : TouchUnique s.assignments) :
    TouchUnique (endFirstPincher assignment s).assignments := by
  have hTUa1 : TouchUnique (unassign assignment.touch assignment.job s.assignments) :=
    TouchUnique_unassign hTU _ _
  simp only [endFirstPincher]
  split
  · split
    · exact hTUa1
    · rename_i second hsnd
      have hsmem : second ∈ unassign assignment.touch assignment.job s.assignments :=
        findByJob_mem hsnd
      have hTUa2 : TouchUnique (unassign second.touch second.job
          (unassign assignment.touch assignment.job s.assignments)) :=
        TouchUnique_unassign hTUa1 _ _
      have hfreshsec : second.touch.identifier ∉ touchIds (unassign second.touch second.job
          (unassign assignment.touch assignment.job s.assignments)) :=
        not_mem_ids_unassign_found hTUa1 hsmem rfl
      split
      · exact TouchUnique_assign hTUa2 hfreshsec
      · exact TouchUnique_assign hTUa2 hfreshsec
  · exact hTUa1

theorem TU_endSecondPincher (assignment : Assignment) {s : State}
    (hTU : TouchUnique s.assignments) :
    TouchUnique (endSecondPincher assignment s).assignments := by
  have hTUa1 : TouchUnique (unassign assignment.touch assignment.job s.assignments) :=
    TouchUnique_unassign hTU _ _
  simp only [endSecondPincher]
  split
  · split
    · exact hTUa1
    · rename_i first hfst
      have hfmem : first ∈ unassign assignment.touch assignment.job s.assignments :=
        findByJob_mem hfst
      have hTUa2 : TouchUnique (unassign first.touch first.job
          (unassign assignment.touch assignment.job s.assignments)) :=
        TouchUnique_unassign hTUa1 _ _
      have hfreshfst : first.touch.identifier ∉ touchIds (unassign first.touch first.job
          (unassign assignment.touch assignment.job s.assignments)) :=
        not_mem_ids_unassign_found hTUa1 hfmem rfl
      exact TouchUnique_assign hTUa2 hfreshfst
  · exact hTUa1

theorem touchIds_endFirstPincher_subset (assignment : Assignment) (s : State) {i : ℕ}
    (hi : i ∈ touchIds (endFirstPincher assignment s).assignments) :
    i ∈ touchIds s.assignments := by
  have hsub1 : ∀ k, k ∈ touchIds (unassign assignment.touch assignment.job s.assignments) →
      k ∈ touchIds s.assignments :=
    fun k hk => List.Sublist.mem hk (touchIds_unassign_sublist _ _ _)
  simp only [endFirstPincher] at hi
  split at hi
  · split at hi
    · exact hsub1 i hi
    · rename_i second hsnd
      have hsmem : second ∈ unassign assignment.touch assignment.job s.assignments :=
        findByJob_mem hsnd
      have hsid : second.touch.identifier ∈ touchIds s.assignments :=
        hsub1 _ (List.mem_map.mpr ⟨second, hsmem, rfl⟩)
      have hsub2 : ∀ k, k ∈ touchIds (unassign second.touch second.job
          (unassign assignment.touch assignment.job s.assignments)) →
          k ∈ touchIds s.assignments :=
        fun k hk => hsub1 k (List.Sublist.mem hk (touchIds_unassign_sublist _ _ _))
      split at hi <;>
      · rcases mem_touchIds_assign hi with h | h
        · exact hsub2 i h
        · rw [h]
          exact hsid
  · exact hsub1 i hi

theorem touchIds_endSecondPincher_subset (assignment : Assignment) (s : State) {i : ℕ}
    (hi : i ∈ touchIds (endSecondPincher assignment s).assignments) :
    i ∈ touchIds s.assignments := by
  have hsub1 : ∀ k, k ∈ touchIds (unassign assignment.touch assignment.job s.assignments) →
      k ∈ touchIds s.assignments :=
    fun k hk => List.Sublist.mem hk (touchIds_unassign_sublist _ _ _)
  simp only [endSecondPincher] at hi
  split at hi
  · split at hi
    · exact hsub1 i hi
    · rename_i first hfst
      have hfmem : first ∈ unassign assignment.touch assignment.job s.assignments :=
        findByJob_mem hfst
      have hfid : first.touch.identifier ∈ touchIds s.assignments :=
        hsub1 _ (List.mem_map.mpr ⟨first, hfmem, rfl⟩)
      rcases mem_touchIds_assign hi with h | h
      · exact hsub1 i (List.Sublist.mem h (touchIds_unassign_sublist _ _ _))
      · rw [h]
        exact hfid
  · exact hsub1 i hi

theorem pendingFirstTouch_endFirstPincher (assignment : Assignment) (s : State) :
    (endFirstPincher assignment s).pendingFirstTouch = s.pendingFirstTouch := by
  simp only [endFirstPincher]
  split
  · split
    · rfl
    · split
      · rfl
      · rfl
  · rfl

theorem pendingFirstTouch_endSecondPincher (assignment : Assignment) (s : State) :
    (endSecondPincher assignment s).pendingFirstTouch = s.pendingFirstTouch := by
  simp only [endSecondPincher]
  split
  · split
    · rfl
    · rfl
  · rfl

theorem pendingFirstTouch_endCore (now : ℚ) (touch : Touch) (s : State) :
    (endCore now touch s).pendingFirstTouch = s.pendingFirstTouch := by
  simp only [endCore]
  rw [pendingFirstTouch_endTapCheck]
  split
  · rfl
  · split
    · rfl
    · split
      · rfl
      · rfl
      · rw [pendingFirstTouch_endFirstPincher]
      · rw [pendingFirstTouch_endSecondPincher]

theorem TU_endCore (now : ℚ) (touch : Touch) {s : State} (hTU : TouchUnique s.assignments) :
    TouchUnique (endCore now touch s).assignments := by
  simp only [endCore]
  rw [TouchUnique, assignments_endTapCheck]
  split
  · exact hTU
  · split
    · exact hTU
    · split
      · exact TouchUnique_unassign hTU _ _
      · exact TouchUnique_unassign hTU _ _
      · exact TU_endFirstPincher _ hTU
      · exact TU_endSecondPincher _ hTU

theorem touchIds_endCore_subset (now : ℚ) (touch : Touch) (s : State) {i : ℕ}
    (hi : i ∈ touchIds (endCore now touch s).assignments) :
    i ∈ touchIds s.assignments := by
  simp only [endCore] at hi
  rw [assignments_endTapCheck] at hi
  split at hi
  · exact hi
  · split at hi
    · exact hi
    · split at hi
      · exact List.Sublist.mem hi (touchIds_unassign_sublist _ _ _)
      · exact List.Sublist.mem hi (touchIds_unassign_sublist _ _ _)
      · exact touchIds_endFirstPincher_subset _ _ hi
      · exact touchIds_endSecondPincher_subset _ _ hi

theorem touchIds_writePrelude (s : State) :
    touchIds (writePrelude s).assignments = touchIds s.assignments := by
  simp only [writePrelude]
  split
  · exact touchIds_updateByJob .moveCamera (fun e => { e with delta := (0, 0) })
      (fun e => rfl) s.assignments
  · rfl

theorem pendingFirstTouch_writePrelude (s : State) :
    (writePrelude s).pendingFirstTouch = s.pendingFirstTouch := by
  simp only [writePrelude]
  split
  · rfl
  · rfl

theorem findByTouch_eq_none (t : Touch) (l : List Assignment)
    (h : touchIsAssigned t l = false) : findByTouch t l = none := by
  rw [touchIsAssigned] at h
  cases hf : findByTouch t l with
  | none => rfl
  | some x => rw [hf] at h; cases h

theorem findByJob_eq_none (j : Job) (l : List Assignment)
    (h : jobIsAssigned j l = false) : findByJob j l = none := by
  rw [jobIsAssigned] at h
  cases hf : findByJob j l with
  | none => rfl
  | some x => rw [hf] at h; cases h

theorem touchIsAssigned_assign_of_ne {t : Touch} {e : Assignment} {l : List Assignment}
    (hbase : touchIsAssigned t l = false) (hne : e.touch.identifier ≠ t.identifier) :
    touchIsAssigned t (assign e l) = false := by
  rcases assign_cases e l with hA | ⟨_, _, hA⟩ <;> rw [hA]
  · exact hbase
  · rw [touchIsAssigned, findByTouch, List.find?_append]
    rw [show List.find? (fun x => decide (x.touch.identifier = t.identifier)) l = none from
      findByTouch_eq_none t l hbase]
    simp [hne]

theorem findByJob_assign_of_none {j : Job} {l : List Assignment} {e : Assignment}
    (ht : touchIsAssigned e.touch l = false)
    (h : jobIsAssigned j l = false) (he : e.job = j) :
    findByJob j (assign e l) = some e := by
  rw [assign_eq_append ht (by rw [he]; exact h)]
  rw [findByJob, List.find?_append]
  rw [show List.find? (fun x => decide (x.job = j)) l = none from findByJob_eq_none j l h]
  simp [he]

theorem findByJob_assign_of_some {j : Job} {l : List Assignment} {e x : Assignment}
    (h : findByJob j l = some x) : findByJob j (assign e l) = some x := by
  rcases assign_cases e l with hA | ⟨_, _, hA⟩ <;> rw [hA]
  · exact h
  · rw [findByJob, List.find?_append]
    rw [show List.find? (fun x => decide (x.job = j)) l = some x from h]
    rfl

theorem findByTouch_assign_of_none {t : Touch} {l : List Assignment} {e : Assignment}
    (h : touchIsAssigned t l = false) (he : e.touch.identifier = t.identifier)
    (hj : jobIsAssigned e.job l = false) :
    findByTouch t (assign e l) = some e := by
  have ht : touchIsAssigned e.touch l = false := by
    rw [touchIsAssigned, findByTouch, he]
    exact h
  rw [assign_eq_append ht hj]
  rw [findByTouch, List.find?_append]
  rw [show List.find? (fun x => decide (x.touch.identifier = t.identifier)) l = none from
    findByTouch_eq_none t l h]
  simp [he]

theorem touchIsAssigned_unassign_false {t : Touch} {x : Touch} {j : Job}
    {l : List Assignment} (h : touchIsAssigned t l = false) :
    touchIsAssigned t (unassign x j l) = false := by
  rw [touchIsAssigned_false_iff] at h ⊢
  intro hmem
  exact h (List.Sublist.mem hmem (touchIds_unassign_sublist x j l))

theorem touchIsAssigned_unassign_self {l : List Assignment} {x : Assignment}
    (hTU : TouchUnique l) (hx : x ∈ l) :
    touchIsAssigned x.touch (unassign x.touch x.job l) = false := by
  rw [touchIsAssigned_false_iff]
  exact not_mem_ids_unassign_found hTU hx rfl

/-- C10: whenever touch-start resolution reaches the SecondPincher-assignment
branch, the promotion lookup (reuse the FirstPincher, or promote the
CameraMove) always finds an existing assignment: the dereference of a missing
(`undefined`) entry — modelled by the `crashed` flag — can never happen, from
any state whatsoever. -/
theorem C10_promotion_lookup_safe (ext : Ext) (interactable : Bool) (now : ℚ)
    (allowMove : Bool) (touch : Touch) (s : State) :
    (processTouchStart ext interactable now allowMove touch s).crashed = s.crashed := by
  rw [processTouchStart]
  split
  · rfl
  · rw [crashed_updatePendingTap]
    simp only [resolveTouchStart]
    split
    · rfl
    · split
      · rfl
      · split
        · rename_i h1 h2 h3
          by_cases hfp : jobIsAssigned .firstPincher s.assignments = true
          · rw [if_pos hfp]
            cases hfind : findByJob .firstPincher s.assignments with
            | none =>
              exfalso
              rw [jobIsAssigned, hfind] at hfp
              cases hfp
            | some f => simp only [Option.map_some']
          · rw [if_neg hfp]
            have hca : jobIsAssigned .moveCamera s.assignments = true := by
              cases hc : jobIsAssigned .moveCamera s.assignments with
              | false =>
                exfalso
                apply h2
                simp only [Bool.not_eq_true] at hfp
                simp [hfp, hc]
              | true => rfl
            cases hfind : findByJob .moveCamera s.assignments with
            | none =>
              exfalso
              rw [jobIsAssigned, hfind] at hca
              cases hca
            | some cm => simp only [Option.map_some']
        · rfl

/-- C8: processing a touch-start for a touch identity that is already present
in the assignment table reports an error and aborts with no state change at
all: the assignment table, the pinch state and the pending-tap bookkeeping
are left exactly as they were. -/
theorem C8_duplicate_start_noop (ext : Ext) (interactable : Bool) (now : ℚ)
    (allowMove : Bool) (touch : Touch) (s : State)
    (h : touchIsAssigned touch s.assignments = true) :
    processTouchStart ext interactable now allowMove touch s = s := by
  rw [processTouchStart, if_pos h]

/-- C8 witness: a concrete state in which the touch is already assigned, and
the concrete no-op conclusion. -/
theorem C8_duplicate_start_noop_witness :
    touchIsAssigned ⟨1, 0, 0⟩
      (run ext0 [Op.startOp false true 0 ⟨1, 0, 0⟩]).assignments = true ∧
    processTouchStart ext0 true 5 false ⟨1, 2, 3⟩
      (run ext0 [Op.startOp false true 0 ⟨1, 0, 0⟩]) =
      run ext0 [Op.startOp false true 0 ⟨1, 0, 0⟩] :=
  ⟨by decide, C8_duplicate_start_noop ext0 true 5 false ⟨1, 2, 3⟩ _ (by decide)⟩

/-- C1 counterexample: the claim "the assignment table never simultaneously
contains a CursorMove and a CameraMove assignment" is false.  A touch over an
interactable object becomes CursorMove; a second touch then takes the
CameraMove branch (which does not exclude an existing CursorMove, and
conversely the CursorMove branch does not exclude an existing CameraMove), so
after this two-start platform-legal sequence both jobs are assigned at once.
The sequence is also reachable under the platform touch-lifecycle contract. -/
theorem C1_counterexample :
    ReachableF ext0 (run ext0 [Op.startOp false true 0 ⟨1, 0, 0⟩,
      Op.startOp false false 1 ⟨2, 3, 4⟩]) ∧
    jobIsAssigned .moveCursor (run ext0 [Op.startOp false true 0 ⟨1, 0, 0⟩,
      Op.startOp false false 1 ⟨2, 3, 4⟩]).assignments = true ∧
    jobIsAssigned .moveCamera (run ext0 [Op.startOp false true 0 ⟨1, 0, 0⟩,
      Op.startOp false false 1 ⟨2, 3, 4⟩]).assignments = true := by
  refine ⟨?_, by decide, by decide⟩
  exact ReachableF.stepStart false false 1 ⟨2, 3, 4⟩
    (ReachableF.stepStart false true 0 ⟨1, 0, 0⟩ ReachableF.init (by decide)) (by decide)

/-- C1 (amended): along every operation sequence whatsoever, the assignment
table never contains two CursorMove assignments nor two CameraMove
assignments; CursorMove and CameraMove can however coexist (one per touch). -/
theorem C1_amended_cursor_camera_at_most_one (ext : Ext) (ops : List Op) :
    countJob .moveCursor (run ext ops).assignments ≤ 1 ∧
    countJob .moveCamera (run ext ops).assignments ≤ 1 :=
  ⟨(invA_run ext ops).2.2.1.1, (invA_run ext ops).2.2.1.2.1⟩

/-- C2: for every operation sequence whatsoever (touch starts, moves,
ends/cancels, timer firings and frame writes), a SecondPincher assignment
exists in the table only if a FirstPincher assignment also exists. -/
theorem C2_second_implies_first (ext : Ext) (ops : List Op)
    (h : jobIsAssigned .secondPincher (run ext ops).assignments = true) :
    jobIsAssigned .firstPincher (run ext ops).assignments = true :=
  (invA_run ext ops).2.2.2 h

/-- C2 witness: after a camera touch is promoted by a second touch, a
SecondPincher exists, and the theorem yields the FirstPincher. -/
theorem C2_second_implies_first_witness :
    jobIsAssigned .secondPincher (run ext0 [Op.startOp false false 0 ⟨1, 0, 0⟩,
      Op.startOp false false 1 ⟨2, 3, 4⟩]).assignments = true ∧
    jobIsAssigned .firstPincher (run ext0 [Op.startOp false false 0 ⟨1, 0, 0⟩,
      Op.startOp false false 1 ⟨2, 3, 4⟩]).assignments = true :=
  ⟨by decide, C2_second_implies_first ext0 [Op.startOp false false 0 ⟨1, 0, 0⟩,
    Op.startOp false false 1 ⟨2, 3, 4⟩] (by decide)⟩

/-- C3: along every operation sequence whatsoever, each touch identity
appears in at most one assignment and each job tag (CursorMove, CameraMove,
FirstPincher, SecondPincher) appears in at most one assignment: the table
refuses an assignment that would give an assigned touch a second job or an
assigned job a second touch, and every other table operation only removes or
updates entries in place. -/
theorem C3_touch_and_job_unique (ext : Ext) (ops : List Op) :
    TouchUnique (run ext ops).assignments ∧
    ∀ j, countJob j (run ext ops).assignments ≤ 1 := by
  obtain ⟨hTU, hfp, ⟨hcu, hca, hse⟩, _⟩ := invA_run ext ops
  refine ⟨hTU, ?_⟩
  intro j
  cases j with
  | moveCursor => exact hcu
  | moveCamera => exact hca
  | firstPincher => exact hfp
  | secondPincher => exact hse

theorem processTouchStart_second (ext : Ext) (interactable : Bool) (now : ℚ)
    (allowMove : Bool) (B : Touch) (s : State) {fe : Assignment}
    (hBfresh : touchIsAssigned B s.assignments = false)
    (hfe : findByJob .firstPincher s.assignments = some fe)
    (hnosecond : jobIsAssigned .secondPincher s.assignments = false) :
    processTouchStart ext interactable now allowMove B s =
      updatePendingTap now { s with
        assignments := assign { touch := B, job := .secondPincher, clientX := B.clientX, clientY := B.clientY } s.assignments,
        pinch := ⟨distance ext fe.clientX fe.clientY B.clientX B.clientY, distance ext fe.clientX fe.clientY B.clientX B.clientY, 0⟩ } := by
  have hfp : jobIsAssigned .firstPincher s.assignments = true := by
    rw [jobIsAssigned, hfe]
    rfl
  rw [processTouchStart, if_neg (by simp [hBfresh])]
  simp only [resolveTouchStart]
  rw [if_neg (by simp [hfp]), if_neg (by simp [hfp]), if_pos (by simp [hnosecond]),
    if_pos hfp, hfe]
  simp only [Option.map_some']

/-- C5: when exactly one touch A is buffered as the pending first touch and a
second touch-start B arrives (A unassigned as the buffer guarantees, B a new
identity, no pincher jobs yet), A is assigned FirstPincher directly, the
buffer is cleared (cancelling the delay timer), B is resolved to
SecondPincher by the normal priority policy, and the pinch state becomes
{initialDistance d, currentDistance d, delta 0} for d the distance between
the stored coordinates of A and B. -/
theorem C5_second_touch_while_buffered (ext : Ext) (shouldDelay interactable : Bool)
    (now : ℚ) (s : State) (A B : Touch)
    (hpend : s.pendingFirstTouch = some A)
    (_hAfresh : touchIsAssigned A s.assignments = false)
    (hBfresh : touchIsAssigned B s.assignments = false)
    (hAB : B.identifier ≠ A.identifier)
    (hnofirst : jobIsAssigned .firstPincher s.assignments = false)
    (hnosecond : jobIsAssigned .secondPincher s.assignments = false) :
    (start ext shouldDelay interactable now B s).pendingFirstTouch = none ∧
    (∃ e, findByJob .firstPincher (start ext shouldDelay interactable now B s).assignments =
        some e ∧ e.touch = A ∧ e.clientX = A.clientX ∧ e.clientY = A.clientY) ∧
    (∃ e, findByJob .secondPincher (start ext shouldDelay interactable now B s).assignments =
        some e ∧ e.touch = B ∧ e.clientX = B.clientX ∧ e.clientY = B.clientY) ∧
    (start ext shouldDelay interactable now B s).pinch =
      ⟨distance ext A.clientX A.clientY B.clientX B.clientY,
        distance ext A.clientX A.clientY B.clientX B.clientY, 0⟩ := by
  have hfe1 : findByJob .firstPincher (assign { touch := A, job := .firstPincher, clientX := A.clientX, clientY := A.clientY } s.assignments) =
      some { touch := A, job := .firstPincher, clientX := A.clientX, clientY := A.clientY } :=
    findByJob_assign_of_none _hAfresh hnofirst rfl
  have hBs1 : touchIsAssigned B (assign { touch := A, job := .firstPincher, clientX := A.clientX, clientY := A.clientY } s.assignments) = false :=
    touchIsAssigned_assign_of_ne hBfresh (Ne.symm hAB)
  have hns1 : jobIsAssigned .secondPincher (assign { touch := A, job := .firstPincher, clientX := A.clientX, clientY := A.clientY } s.assignments) = false :=
    jobIsAssigned_assign_of_ne hnosecond (by simp)
  simp only [start, hpend]
  rw [processTouchStart_second ext interactable now false B
    { s with assignments := assign { touch := A, job := .firstPincher, clientX := A.clientX, clientY := A.clientY } s.assignments, pendingFirstTouch := none }
    hBs1 hfe1 hns1]
  refine ⟨?_, ?_, ?_, ?_⟩
  · rw [pendingFirstTouch_updatePendingTap]
  · refine ⟨{ touch := A, job := .firstPincher, clientX := A.clientX, clientY := A.clientY }, ?_, rfl, rfl, rfl⟩
    rw [assignments_updatePendingTap]
    exact findByJob_assign_of_some hfe1
  · refine ⟨{ touch := B, job := .secondPincher, clientX := B.clientX, clientY := B.clientY }, ?_, rfl, rfl, rfl⟩
    rw [assignments_updatePendingTap]
    exact findByJob_assign_of_none hBs1 hns1 rfl
  · rw [pinch_updatePendingTap]

/-- C5 witness: touch 1 buffered on the empty device, touch 2 lands; the
hypotheses hold concretely and the theorem produces the pinch pair. -/
theorem C5_second_touch_while_buffered_witness :
    (run ext0 [Op.startOp true false 0 ⟨1, 0, 0⟩]).pendingFirstTouch = some ⟨1, 0, 0⟩ ∧
    ((start ext0 true false 1 ⟨2, 3, 4⟩
        (run ext0 [Op.startOp true false 0 ⟨1, 0, 0⟩])).pendingFirstTouch = none ∧
      (∃ e, findByJob .firstPincher (start ext0 true false 1 ⟨2, 3, 4⟩
          (run ext0 [Op.startOp true false 0 ⟨1, 0, 0⟩])).assignments = some e ∧
        e.touch = ⟨1, 0, 0⟩ ∧ e.clientX = (⟨1, 0, 0⟩ : Touch).clientX ∧
        e.clientY = (⟨1, 0, 0⟩ : Touch).clientY) ∧
      (∃ e, findByJob .secondPincher (start ext0 true false 1 ⟨2, 3, 4⟩
          (run ext0 [Op.startOp true false 0 ⟨1, 0, 0⟩])).assignments = some e ∧
        e.touch = ⟨2, 3, 4⟩ ∧ e.clientX = (⟨2, 3, 4⟩ : Touch).clientX ∧
        e.clientY = (⟨2, 3, 4⟩ : Touch).clientY) ∧
      (start ext0 true false 1 ⟨2, 3, 4⟩
          (run ext0 [Op.startOp true false 0 ⟨1, 0, 0⟩])).pinch =
        ⟨distance ext0 (⟨1, 0, 0⟩ : Touch).clientX (⟨1, 0, 0⟩ : Touch).clientY
            (⟨2, 3, 4⟩ : Touch).clientX (⟨2, 3, 4⟩ : Touch).clientY,
          distance ext0 (⟨1, 0, 0⟩ : Touch).clientX (⟨1, 0, 0⟩ : Touch).clientY
            (⟨2, 3, 4⟩ : Touch).clientX (⟨2, 3, 4⟩ : Touch).clientY, 0⟩) :=
  ⟨by decide,
    C5_second_touch_while_buffered ext0 true false 1
      (run ext0 [Op.startOp true false 0 ⟨1, 0, 0⟩]) ⟨1, 0, 0⟩ ⟨2, 3, 4⟩
      (by decide) (by decide) (by decide) (by decide) (by decide) (by decide)⟩

/-- C9 counterexample: a single first touch whose hit test reports an
interactable non-UI surface (`shouldDelayStartTouch` is true away from UI
surfaces, `isCursorOverInteractable` is true) does NOT resolve immediately to
CursorMove: it is buffered in the 150ms delay buffer and no assignment is
created by the touch start. -/
theorem C9_counterexample :
    (start ext0 true true 0 ⟨1, 0, 0⟩ initState).assignments = [] ∧
    jobIsAssigned .moveCursor (start ext0 true true 0 ⟨1, 0, 0⟩ initState).assignments
      = false ∧
    (start ext0 true true 0 ⟨1, 0, 0⟩ initState).pendingFirstTouch = some ⟨1, 0, 0⟩ := by
  decide

/-- C9 (amended): a single first touch over an interactable non-UI surface is
buffered rather than resolving immediately; when the 150ms timer fires with no
second touch having arrived, it resolves to CursorMove with isFirstFrame set,
and the first subsequent frame write publishes isTouchingGrabbable = false
while the second publishes isTouchingGrabbable = true (no lift in between). -/
theorem C9_amended_delayed_cursor (ext : Ext) (t : Touch) (n0 n1 : ℚ) :
    (start ext true true n0 t initState).assignments = [] ∧
    (start ext true true n0 t initState).pendingFirstTouch = some t ∧
    (∃ e, findByJob .moveCursor
        (timerFire ext true n1 (start ext true true n0 t initState)).assignments = some e ∧
      e.touch = t ∧ e.isFirstFrame = true) ∧
    (write ext [] (timerFire ext true n1
      (start ext true true n0 t initState))).2.isTouchingGrabbable = some false ∧
    (write ext [] (write ext [] (timerFire ext true n1
      (start ext true true n0 t initState))).1).2.isTouchingGrabbable = some true := by
  refine ⟨rfl, rfl, ⟨{ touch := t, job := .moveCursor, cursorPose := ext.proj t.clientX t.clientY, isFirstFrame := true }, rfl, rfl, rfl⟩, rfl, rfl⟩

theorem move_pinch_step (ext : Ext) (interactable : Bool) (now : ℚ) (touch : Touch)
    {st : State} (hpn : st.pendingFirstTouch = none) :
    (move ext interactable now touch st).pinch.delta =
      st.pinch.delta +
        ((move ext interactable now touch st).pinch.currentDistance -
          st.pinch.currentDistance) ∧
    (move ext interactable now touch st).pendingFirstTouch = none := by
  have hm : move ext interactable now touch st = moveCore ext touch st := by
    simp only [move, hpn]
  rw [hm]
  refine ⟨?_, by rw [pendingFirstTouch_moveCore, hpn]⟩
  simp only [moveCore]
  split
  · ring
  · split
    · ring
    · split <;>
        first
        | (dsimp only; ring)
        | (dsimp only)
        | (split <;>
            first
            | (dsimp only; ring)
            | (dsimp only)
            | (split <;> first | (dsimp only; ring) | (dsimp only)))

theorem drain_moves_pinch (ext : Ext) (evs : List Ev) {s0 : State} (c0 : ℚ)
    (hmoves : evs.all Ev.isMove = true) (hpn : s0.pendingFirstTouch = none)
    (hd : s0.pinch.delta = s0.pinch.currentDistance - c0) :
    (evs.foldl (fun st e => applyEv ext e st) s0).pinch.delta =
      (evs.foldl (fun st e => applyEv ext e st) s0).pinch.currentDistance - c0 ∧
    (evs.foldl (fun st e => applyEv ext e st) s0).pendingFirstTouch = none := by
  induction evs generalizing s0 with
  | nil => exact ⟨hd, hpn⟩
  | cons e rest ih =>
    rw [List.all_cons, Bool.and_eq_true] at hmoves
    cases e with
    | startEv shouldDelay interactable now touch =>
      exfalso
      simp [Ev.isMove] at hmoves
    | endEv now touch =>
      exfalso
      simp [Ev.isMove] at hmoves
    | moveEv interactable now touch =>
      obtain ⟨hstep, hpn1⟩ := move_pinch_step ext interactable now touch hpn
      refine ih hmoves.2 hpn1 ?_
      show (move ext interactable now touch s0).pinch.delta =
        (move ext interactable now touch s0).pinch.currentDistance - c0
      rw [hstep, hd]
      ring

theorem pinch_writePrelude (s : State) :
    (writePrelude s).pinch = { s.pinch with delta := 0 } := by
  simp only [writePrelude]
  split
  · rfl
  · rfl

theorem write_pinch_frame (ext : Ext) (evs : List Ev) (s : State) :
    (write ext evs s).2.pinchDelta =
      some ((evs.foldl (fun st e => applyEv ext e st) (writePrelude s)).pinch.delta) ∧
    (write ext evs s).1.pinch =
      (evs.foldl (fun st e => applyEv ext e st) (writePrelude s)).pinch := by
  simp only [write]
  cases hc : findByJob Job.moveCursor
      (List.foldl (fun st e => applyEv ext e st) (writePrelude s) evs).assignments with
  | some a =>
    refine ⟨?_, by dsimp only⟩
    split
    · dsimp only
    · dsimp only
  | none =>
    refine ⟨?_, rfl⟩
    split
    · dsimp only
    · dsimp only

/-- C6: the pinch delta published by a frame write equals the net change in
inter-pincher distance produced by the touch-move events drained during that
same write (the change since the previous frame write), not the change since
pinch start: the delta is reset to zero at the start of the write before the
queued events are drained, each pincher move accumulates the distance change,
and the accumulated value is then published. -/
theorem C6_pinch_delta_intra_frame (ext : Ext) (evs : List Ev) {s : State}
    (hpend : s.pendingFirstTouch = none) (hmoves : evs.all Ev.isMove = true) :
    (write ext evs s).2.pinchDelta =
      some ((write ext evs s).1.pinch.currentDistance - s.pinch.currentDistance) := by
  obtain ⟨hf, hstate⟩ := write_pinch_frame ext evs s
  have hpn1 : (writePrelude s).pendingFirstTouch = none := by
    rw [pendingFirstTouch_writePrelude, hpend]
  have hd0 : (writePrelude s).pinch.delta =
      (writePrelude s).pinch.currentDistance - s.pinch.currentDistance := by
    rw [pinch_writePrelude]
    dsimp only
    ring
  obtain ⟨hdf, _⟩ := drain_moves_pinch ext evs s.pinch.currentDistance hmoves hpn1 hd0
  rw [hf, hstate, hdf]

/-- C6 witness: a pinch between touches 1 and 2 (squared-distance collaborator
ext0, distance 25); touch 2 moves so the distance becomes 100; the frame write
draining that move publishes pinch delta 100 - 25 = 75, the intra-frame
change, not the change since pinch start. -/
theorem C6_pinch_delta_intra_frame_witness :
    (run ext0 [Op.startOp false false 0 ⟨1, 0, 0⟩,
      Op.startOp false false 1 ⟨2, 3, 4⟩]).pendingFirstTouch = none ∧
    ([Ev.moveEv false 2 ⟨2, 6, 8⟩].all Ev.isMove) = true ∧
    (write ext0 [Ev.moveEv false 2 ⟨2, 6, 8⟩]
        (run ext0 [Op.startOp false false 0 ⟨1, 0, 0⟩,
          Op.startOp false false 1 ⟨2, 3, 4⟩])).2.pinchDelta =
      some ((write ext0 [Ev.moveEv false 2 ⟨2, 6, 8⟩]
        (run ext0 [Op.startOp false false 0 ⟨1, 0, 0⟩,
          Op.startOp false false 1 ⟨2, 3, 4⟩])).1.pinch.currentDistance -
        (run ext0 [Op.startOp false false 0 ⟨1, 0, 0⟩,
          Op.startOp false false 1 ⟨2, 3, 4⟩]).pinch.currentDistance) :=
  ⟨by decide, by decide,
    C6_pinch_delta_intra_frame ext0 [Ev.moveEv false 2 ⟨2, 6, 8⟩] (by decide) (by decide)⟩

theorem endTapCheck_empty_pos (now : ℚ) {s : State} (hs : s.assignments = [])
    (hN : 0 < s.pendingTap.maxTouchCount) (ht : now - s.pendingTap.startedAt ≤ 125) :
    (endTapCheck now s).assignments = [] ∧
    (endTapCheck now s).pendingTap = ⟨0, 0⟩ ∧
    (endTapCheck now s).tapIndexToWriteNextFrame = s.pendingTap.maxTouchCount := by
  simp only [endTapCheck, hs, List.length_nil]
  rw [if_pos (And.intro hN ht)]
  exact ⟨rfl, rfl, rfl⟩

theorem endCore_singleton (now : ℚ) (touch : Touch) (a : Assignment) {s : State}
    (hs : s.assignments = [a]) (hid : a.touch.identifier = touch.identifier)
    (hN : 0 < s.pendingTap.maxTouchCount) (ht : now - s.pendingTap.startedAt ≤ 125) :
    (endCore now touch s).assignments = [] ∧
    (endCore now touch s).pendingTap = ⟨0, 0⟩ ∧
    (endCore now touch s).tapIndexToWriteNextFrame = s.pendingTap.maxTouchCount := by
  have hfind : findByTouch touch s.assignments = some a := by
    rw [hs]
    exact findByTouch_cons_of_pos [] hid
  have hassigned : touchIsAssigned touch s.assignments = true := by
    rw [touchIsAssigned, hfind]
    rfl
  have hun : unassign a.touch a.job s.assignments = [] := by
    rw [hs]
    simp [unassign]
  have h2nd : jobIsAssigned Job.secondPincher ([] : List Assignment) = false := rfl
  have h1st : jobIsAssigned Job.firstPincher ([] : List Assignment) = false := rfl
  simp only [endCore, hassigned, Bool.not_true, Bool.false_eq_true, if_false, hfind]
  cases hjob : a.job with
  | moveCursor =>
    rw [hjob] at hun
    simp only [hun]
    exact endTapCheck_empty_pos now rfl hN ht
  | moveCamera =>
    rw [hjob] at hun
    simp only [hun]
    exact endTapCheck_empty_pos now rfl hN ht
  | firstPincher =>
    simp only [endFirstPincher, hjob] at hun ⊢
    simp only [hun, h2nd, Bool.false_eq_true, if_false]
    exact endTapCheck_empty_pos now rfl hN ht
  | secondPincher =>
    simp only [endSecondPincher, hjob] at hun ⊢
    simp only [hun, h1st, Bool.false_and, Bool.false_eq_true, if_false]
    exact endTapCheck_empty_pos now rfl hN ht

theorem write_tap_empty_pos (ext : Ext) {s : State} (hs : s.assignments = [])
    (h : s.tapIndexToWriteNextFrame ≠ 0) :
    (write ext [] s).2.tap = some s.tapIndexToWriteNextFrame ∧
    (write ext [] s).1.tapIndexToWriteNextFrame = 0 ∧
    (write ext [] s).1.assignments = [] := by
  cases s with
  | mk asg pinch pt tidx pft cr =>
    cases hs
    have e1 : findByJob Job.moveCursor ([] : List Assignment) = none := rfl
    have e2 : findByJob Job.moveCamera ([] : List Assignment) = none := rfl
    have e3 : jobIsAssigned Job.moveCursor ([] : List Assignment) = false := rfl
    have e4 : jobIsAssigned Job.moveCamera ([] : List Assignment) = false := rfl
    simp only [write, writePrelude, List.foldl_nil, e1, e2, e3, e4, Bool.or_self,
      Bool.false_eq_true, if_false]
    rw [if_pos h]
    refine ⟨?_, ?_, ?_⟩ <;> first | rfl | trivial

theorem write_tap_empty_zero (ext : Ext) {s : State} (hs : s.assignments = [])
    (h : s.tapIndexToWriteNextFrame = 0) :
    (write ext [] s).2.tap = none := by
  cases s with
  | mk asg pinch pt tidx pft cr =>
    cases hs
    have e1 : findByJob Job.moveCursor ([] : List Assignment) = none := rfl
    have e2 : findByJob Job.moveCamera ([] : List Assignment) = none := rfl
    have e3 : jobIsAssigned Job.moveCursor ([] : List Assignment) = false := rfl
    have e4 : jobIsAssigned Job.moveCamera ([] : List Assignment) = false := rfl
    dsimp only at h
    simp only [write, writePrelude, List.foldl_nil, e1, e2, e3, e4, Bool.or_self,
      Bool.false_eq_true, if_false]
    rw [if_neg (by simp [h])]

/-- C7: when a touch-end empties the assignment table while the pending-tap
max-touch-count N is nonzero and at most 125ms have elapsed since the pending
tap started, the tap index N is scheduled and the pending tap is reset; the
next frame write publishes the tap flag for N fingers and clears the
schedule, so the following frame write publishes no tap. -/
theorem C7_tap_published_once (ext : Ext) (now : ℚ) (touch : Touch) (a : Assignment)
    {s : State} (hpf : s.pendingFirstTouch = none) (hs : s.assignments = [a])
    (hid : a.touch.identifier = touch.identifier)
    (hN : 0 < s.pendingTap.maxTouchCount)
    (ht : now - s.pendingTap.startedAt ≤ 125) :
    (endTouch ext now touch s).tapIndexToWriteNextFrame = s.pendingTap.maxTouchCount ∧
    (endTouch ext now touch s).pendingTap = ⟨0, 0⟩ ∧
    (write ext [] (endTouch ext now touch s)).2.tap = some s.pendingTap.maxTouchCount ∧
    (write ext [] (endTouch ext now touch s)).1.tapIndexToWriteNextFrame = 0 ∧
    (write ext [] (write ext [] (endTouch ext now touch s)).1).2.tap = none := by
  have hend : endTouch ext now touch s = endCore now touch s := by
    simp only [endTouch, hpf]
  obtain ⟨hA, hPT, hTI⟩ := endCore_singleton now touch a hs hid hN ht
  have hNe : (endCore now touch s).tapIndexToWriteNextFrame ≠ 0 := by
    rw [hTI]
    omega
  obtain ⟨hw1, hw2, hw3⟩ := write_tap_empty_pos ext hA hNe
  have hw4 := write_tap_empty_zero ext hw3 hw2
  rw [hend]
  exact ⟨hTI, hPT, by rw [hw1, hTI], hw2, hw4⟩

/-- C7 witness: one touch lands at t = 0 (becoming a CameraMove assignment,
pending-tap count 1) and lifts at t = 100 ≤ 125; the end schedules tap index
1 and resets the pending tap, the next write publishes tap 1, and the write
after that publishes no tap. -/
theorem C7_tap_published_once_witness :
    (run ext0 [Op.startOp false false 0 ⟨1, 0, 0⟩]).pendingFirstTouch = none ∧
    (run ext0 [Op.startOp false false 0 ⟨1, 0, 0⟩]).assignments =
      [{ touch := ⟨1, 0, 0⟩, job := .moveCamera, clientX := 0, clientY := 0,
         delta := (0, 0), cursorPose := (0, 0), isFirstFrame := false }] ∧
    (0 : ℚ) = (0 : ℚ) ∧
    0 < (run ext0 [Op.startOp false false 0 ⟨1, 0, 0⟩]).pendingTap.maxTouchCount ∧
    (100 : ℚ) - (run ext0 [Op.startOp false false 0 ⟨1, 0, 0⟩]).pendingTap.startedAt ≤ 125 ∧
    ((endTouch ext0 100 ⟨1, 0, 0⟩ (run ext0 [Op.startOp false false 0 ⟨1, 0, 0⟩])).tapIndexToWriteNextFrame =
        (run ext0 [Op.startOp false false 0 ⟨1, 0, 0⟩]).pendingTap.maxTouchCount ∧
      (endTouch ext0 100 ⟨1, 0, 0⟩ (run ext0 [Op.startOp false false 0 ⟨1, 0, 0⟩])).pendingTap = ⟨0, 0⟩ ∧
      (write ext0 [] (endTouch ext0 100 ⟨1, 0, 0⟩ (run ext0 [Op.startOp false false 0 ⟨1, 0, 0⟩]))).2.tap =
        some (run ext0 [Op.startOp false false 0 ⟨1, 0, 0⟩]).pendingTap.maxTouchCount ∧
      (write ext0 [] (endTouch ext0 100 ⟨1, 0, 0⟩ (run ext0 [Op.startOp false false 0 ⟨1, 0, 0⟩]))).1.tapIndexToWriteNextFrame = 0 ∧
      (write ext0 []
        (write ext0 [] (endTouch ext0 100 ⟨1, 0, 0⟩ (run ext0 [Op.startOp false false 0 ⟨1, 0, 0⟩]))).1).2.tap = none) :=
  ⟨by decide, by decide, rfl, by decide,
    by
      rw [show (run ext0 [Op.startOp false false 0 ⟨1, 0, 0⟩]).pendingTap.startedAt =
        (0 : ℚ) from by decide]
      norm_num,
    C7_tap_published_once ext0 100 ⟨1, 0, 0⟩
      { touch := ⟨1, 0, 0⟩, job := .moveCamera, clientX := 0, clientY := 0,
        delta := (0, 0), cursorPose := (0, 0), isFirstFrame := false }
      (by decide) (by decide) (by decide) (by decide)
      (by
        rw [show (run ext0 [Op.startOp false false 0 ⟨1, 0, 0⟩]).pendingTap.startedAt =
          (0 : ℚ) from by decide]
        norm_num)⟩

theorem touchIsAssigned_congr_id {t1 t2 : Touch} (h : t1.identifier = t2.identifier)
    (l : List Assignment) : touchIsAssigned t1 l = touchIsAssigned t2 l := by
  simp only [touchIsAssigned, findByTouch, h]

theorem ids_ne_of_TU {l : List Assignment} (hTU : TouchUnique l) {x y : Assignment}
    (hx : x ∈ l) (hy : y ∈ l) (hne : x.job ≠ y.job) :
    x.touch.identifier ≠ y.touch.identifier := by
  intro h
  have hxy : x = y := List.inj_on_of_nodup_map hTU hx hy h
  exact hne (by rw [hxy])

theorem mem_of_mem_unassign {t : Touch} {j : Job} {l : List Assignment} {x : Assignment}
    (h : x ∈ unassign t j l) : x ∈ l :=
  List.mem_of_mem_filter h

/-- C4: when a pincher touch ends (and the ended touch is not the buffered
pending one), its assignment is removed and the pinch state is reset to
zeros; on a FirstPincher end, an existing SecondPincher is reassigned to
FirstPincher (coordinates preserved) when a CameraMove existed before the
lift and otherwise to CameraMove (coordinates preserved, delta reset); on a
SecondPincher end, a remaining FirstPincher is reassigned to CameraMove
(coordinates preserved, delta reset) exactly when no CameraMove exists. -/
theorem C4_end_pincher (ext : Ext) (now : ℚ) (touch : Touch) (a : Assignment) {s : State}
    (hpend : ∀ p, s.pendingFirstTouch = some p → p.identifier ≠ touch.identifier)
    (hTU : TouchUnique s.assignments)
    (hfind : findByTouch touch s.assignments = some a) :
    (a.job = .firstPincher →
      (endTouch ext now touch s).pinch = ⟨0, 0, 0⟩ ∧
      touchIsAssigned touch (endTouch ext now touch s).assignments = false ∧
      (jobIsAssigned .secondPincher s.assignments = false →
        (endTouch ext now touch s).assignments =
          unassign a.touch .firstPincher s.assignments) ∧
      (∀ second, findByJob .secondPincher s.assignments = some second →
        (jobIsAssigned .moveCamera s.assignments = true →
          (endTouch ext now touch s).assignments =
            assign { touch := second.touch, job := .firstPincher,
                     clientX := second.clientX, clientY := second.clientY }
              (unassign second.touch .secondPincher
                (unassign a.touch .firstPincher s.assignments))) ∧
        (jobIsAssigned .moveCamera s.assignments = false →
          (endTouch ext now touch s).assignments =
            assign { touch := second.touch, job := .moveCamera,
                     clientX := second.clientX, clientY := second.clientY,
                     delta := (0, 0) }
              (unassign second.touch .secondPincher
                (unassign a.touch .firstPincher s.assignments))))) ∧
    (a.job = .secondPincher →
      (endTouch ext now touch s).pinch = ⟨0, 0, 0⟩ ∧
      touchIsAssigned touch (endTouch ext now touch s).assignments = false ∧
      (∀ first, findByJob .firstPincher s.assignments = some first →
        jobIsAssigned .moveCamera s.assignments = false →
        (endTouch ext now touch s).assignments =
          assign { touch := first.touch, job := .moveCamera,
                   clientX := first.clientX, clientY := first.clientY,
                   delta := (0, 0) }
            (unassign first.touch .firstPincher
              (unassign a.touch .secondPincher s.assignments))) ∧
      ((jobIsAssigned .firstPincher s.assignments = false ∨
          jobIsAssigned .moveCamera s.assignments = true) →
        (endTouch ext now touch s).assignments =
          unassign a.touch .secondPincher s.assignments)) := by
  have haid : a.touch.identifier = touch.identifier := findByTouch_id hfind
  have hmem : a ∈ s.assignments := findByTouch_mem hfind
  have hassigned : touchIsAssigned touch s.assignments = true := by
    rw [touchIsAssigned, hfind]
    rfl
  have hend : endTouch ext now touch s = endCore now touch s := by
    cases hp : s.pendingFirstTouch with
    | none => simp only [endTouch, hp]
    | some p =>
      simp only [endTouch, hp]
      rw [if_neg (hpend p hp)]
  rw [hend]
  constructor
  · intro hjob
    have hcore : endCore now touch s = endTapCheck now (endFirstPincher a s) := by
      simp only [endCore, hassigned, Bool.not_true, Bool.false_eq_true, if_false, hfind, hjob]
    rw [hcore]
    have h1 : touchIsAssigned touch (unassign a.touch Job.firstPincher s.assignments)
        = false := by
      have h0 := touchIsAssigned_unassign_self hTU hmem
      rw [hjob] at h0
      rw [touchIsAssigned_congr_id haid.symm]
      exact h0
    have hcond : jobIsAssigned Job.secondPincher
          (unassign a.touch Job.firstPincher s.assignments) =
        jobIsAssigned Job.secondPincher s.assignments :=
      jobIsAssigned_unassign_ne a.touch (by decide) s.assignments
    have hfj2 : findByJob Job.secondPincher
          (unassign a.touch Job.firstPincher s.assignments) =
        findByJob Job.secondPincher s.assignments :=
      findByJob_unassign_ne a.touch (by decide) s.assignments
    simp only [endFirstPincher, hjob, hcond, hfj2]
    cases h2 : jobIsAssigned Job.secondPincher s.assignments with
    | false =>
      simp only [Bool.false_eq_true, if_false]
      refine ⟨by rw [pinch_endTapCheck], ?_, ?_, ?_⟩
      · rw [assignments_endTapCheck]
        exact h1
      · intro _
        rw [assignments_endTapCheck]
      · intro second hsec
        rw [findByJob_eq_none Job.secondPincher s.assignments h2] at hsec
        exact Option.noConfusion hsec
    | true =>
      cases hsec : findByJob Job.secondPincher s.assignments with
      | none =>
        rw [jobIsAssigned, hsec] at h2
        exact Bool.noConfusion h2
      | some second =>
        have hsecjob : second.job = Job.secondPincher := findByJob_job hsec
        have hsmem : second ∈ s.assignments := findByJob_mem hsec
        have hsid : second.touch.identifier ≠ touch.identifier := by
          have hja : second.job ≠ a.job := by
            rw [hsecjob, hjob]
            decide
          have := ids_ne_of_TU hTU hsmem hmem hja
          rw [haid] at this
          exact this
        have h2' : touchIsAssigned touch
            (unassign second.touch Job.secondPincher
              (unassign a.touch Job.firstPincher s.assignments)) = false :=
          touchIsAssigned_unassign_false h1
        have hcamrw : jobIsAssigned Job.moveCamera
              (unassign second.touch Job.secondPincher
                (unassign a.touch Job.firstPincher s.assignments)) =
            jobIsAssigned Job.moveCamera s.assignments := by
          rw [jobIsAssigned_unassign_ne second.touch
              (show Job.moveCamera ≠ Job.secondPincher by decide),
            jobIsAssigned_unassign_ne a.touch
              (show Job.moveCamera ≠ Job.firstPincher by decide)]
        simp only [hsecjob, hcamrw]
        rw [if_pos trivial]
        cases hcam : jobIsAssigned Job.moveCamera s.assignments with
        | true =>
          rw [if_pos rfl]
          refine ⟨by rw [pinch_endTapCheck], ?_, ?_, ?_⟩
          · rw [assignments_endTapCheck]
            show touchIsAssigned touch (assign _ _) = false
            exact touchIsAssigned_assign_of_ne h2' hsid
          · intro hno
            exact Bool.noConfusion hno
          · intro second' hsec'
            have heq : second = second' := Option.some.inj hsec'
            subst heq
            refine ⟨fun _ => ?_, fun hcf => ?_⟩
            · rw [assignments_endTapCheck]
            · exact Bool.noConfusion hcf
        | false =>
          simp only [Bool.false_eq_true, if_false]
          refine ⟨by rw [pinch_endTapCheck], ?_, ?_, ?_⟩
          · rw [assignments_endTapCheck]
            show touchIsAssigned touch (assign _ _) = false
            exact touchIsAssigned_assign_of_ne h2' hsid
          · intro hno
            exact Bool.noConfusion hno
          · intro second' hsec'
            have heq : second = second' := Option.some.inj hsec'
            subst heq
            refine ⟨fun hct => ?_, fun _ => ?_⟩
            · exact hct.elim
            · rw [assignments_endTapCheck]
  · intro hjob
    have hcore : endCore now touch s = endTapCheck now (endSecondPincher a s) := by
      simp only [endCore, hassigned, Bool.not_true, Bool.false_eq_true, if_false, hfind, hjob]
    rw [hcore]
    have h1 : touchIsAssigned touch (unassign a.touch Job.secondPincher s.assignments)
        = false := by
      have h0 := touchIsAssigned_unassign_self hTU hmem
      rw [hjob] at h0
      rw [touchIsAssigned_congr_id haid.symm]
      exact h0
    have hfstrw : jobIsAssigned Job.firstPincher
          (unassign a.touch Job.secondPincher s.assignments) =
        jobIsAssigned Job.firstPincher s.assignments :=
      jobIsAssigned_unassign_ne a.touch (by decide) s.assignments
    have hcamrw : jobIsAssigned Job.moveCamera
          (unassign a.touch Job.secondPincher s.assignments) =
        jobIsAssigned Job.moveCamera s.assignments :=
      jobIsAssigned_unassign_ne a.touch (by decide) s.assignments
    have hfjrw : findByJob Job.firstPincher
          (unassign a.touch Job.secondPincher s.assignments) =
        findByJob Job.firstPincher s.assignments :=
      findByJob_unassign_ne a.touch (by decide) s.assignments
    simp only [endSecondPincher, hjob, hfstrw, hcamrw, hfjrw]
    cases hc : (jobIsAssigned Job.firstPincher s.assignments &&
        !jobIsAssigned Job.moveCamera s.assignments) with
    | false =>
      simp only [Bool.false_eq_true, if_false]
      refine ⟨by rw [pinch_endTapCheck], ?_, ?_, ?_⟩
      · rw [assignments_endTapCheck]
        exact h1
      · intro first hfc hcamf
        have hfst : jobIsAssigned Job.firstPincher s.assignments = true := by
          rw [jobIsAssigned, hfc]
          rfl
        rw [hfst, hcamf] at hc
        exact Bool.noConfusion hc
      · intro _
        rw [assignments_endTapCheck]
    | true =>
      rw [Bool.and_eq_true, Bool.not_eq_true'] at hc
      obtain ⟨hfst, hcam⟩ := hc
      cases hfc : findByJob Job.firstPincher s.assignments with
      | none =>
        rw [jobIsAssigned, hfc] at hfst
        exact Bool.noConfusion hfst
      | some first =>
        have hfstjob : first.job = Job.firstPincher := findByJob_job hfc
        have hfmem : first ∈ s.assignments := findByJob_mem hfc
        have hfid : first.touch.identifier ≠ touch.identifier := by
          have hja : first.job ≠ a.job := by
            rw [hfstjob, hjob]
            decide
          have := ids_ne_of_TU hTU hfmem hmem hja
          rw [haid] at this
          exact this
        have h2' : touchIsAssigned touch
            (unassign first.touch Job.firstPincher
              (unassign a.touch Job.secondPincher s.assignments)) = false :=
          touchIsAssigned_unassign_false h1
        simp only [hfstjob]
        rw [if_pos trivial]
        refine ⟨by rw [pinch_endTapCheck], ?_, ?_, ?_⟩
        · rw [assignments_endTapCheck]
          show touchIsAssigned touch (assign _ _) = false
          exact touchIsAssigned_assign_of_ne h2' hfid
        · intro first' hfc' _
          have heq : first = first' := Option.some.inj hfc'
          subst heq
          rw [assignments_endTapCheck]
        · intro hdis
          cases hdis with
          | inl hno =>
            rw [hno] at hfst
            exact Bool.noConfusion hfst
          | inr hcamt =>
            rw [hcamt] at hcam
            exact Bool.noConfusion hcam

/-- C4 witness: in the two-touch pinch state, ending the SecondPincher touch
2 at t = 50 removes its assignment, resets the pinch, and demotes the
remaining FirstPincher (touch 1) to CameraMove with its coordinates
preserved and delta reset. -/
theorem C4_end_pincher_witness :
    (∀ p, exTwoTouchState.pendingFirstTouch = some p →
      p.identifier ≠ (⟨2, 3, 4⟩ : Touch).identifier) ∧
    TouchUnique exTwoTouchState.assignments ∧
    findByTouch ⟨2, 3, 4⟩ exTwoTouchState.assignments = some exSecondEntry ∧
    ((exSecondEntry.job = .firstPincher →
      (endTouch ext0 50 ⟨2, 3, 4⟩ exTwoTouchState).pinch = ⟨0, 0, 0⟩ ∧
      touchIsAssigned ⟨2, 3, 4⟩ (endTouch ext0 50 ⟨2, 3, 4⟩ exTwoTouchState).assignments = false ∧
      (jobIsAssigned .secondPincher exTwoTouchState.assignments = false →
        (endTouch ext0 50 ⟨2, 3, 4⟩ exTwoTouchState).assignments =
          unassign exSecondEntry.touch .firstPincher exTwoTouchState.assignments) ∧
      (∀ second, findByJob .secondPincher exTwoTouchState.assignments = some second →
        (jobIsAssigned .moveCamera exTwoTouchState.assignments = true →
          (endTouch ext0 50 ⟨2, 3, 4⟩ exTwoTouchState).assignments =
            assign { touch := second.touch, job := .firstPincher,
                     clientX := second.clientX, clientY := second.clientY }
              (unassign second.touch .secondPincher
                (unassign exSecondEntry.touch .firstPincher exTwoTouchState.assignments))) ∧
        (jobIsAssigned .moveCamera exTwoTouchState.assignments = false →
          (endTouch ext0 50 ⟨2, 3, 4⟩ exTwoTouchState).assignments =
            assign { touch := second.touch, job := .moveCamera,
                     clientX := second.clientX, clientY := second.clientY,
                     delta := (0, 0) }
              (unassign second.touch .secondPincher
                (unassign exSecondEntry.touch .firstPincher exTwoTouchState.assignments))))) ∧
    (exSecondEntry.job = .secondPincher →
      (endTouch ext0 50 ⟨2, 3, 4⟩ exTwoTouchState).pinch = ⟨0, 0, 0⟩ ∧
      touchIsAssigned ⟨2, 3, 4⟩ (endTouch ext0 50 ⟨2, 3, 4⟩ exTwoTouchState).assignments = false ∧
      (∀ first, findByJob .firstPincher exTwoTouchState.assignments = some first →
        jobIsAssigned .moveCamera exTwoTouchState.assignments = false →
        (endTouch ext0 50 ⟨2, 3, 4⟩ exTwoTouchState).assignments =
          assign { touch := first.touch, job := .moveCamera,
                   clientX := first.clientX, clientY := first.clientY,
                   delta := (0, 0) }
            (unassign first.touch .firstPincher
              (unassign exSecondEntry.touch .secondPincher exTwoTouchState.assignments))) ∧
      ((jobIsAssigned .firstPincher exTwoTouchState.assignments = false ∨
          jobIsAssigned .moveCamera exTwoTouchState.assignments = true) →
        (endTouch ext0 50 ⟨2, 3, 4⟩ exTwoTouchState).assignments =
          unassign exSecondEntry.touch .secondPincher exTwoTouchState.assignments))) := by
  have hpend : ∀ p, exTwoTouchState.pendingFirstTouch = some p →
      p.identifier ≠ (⟨2, 3, 4⟩ : Touch).identifier := by
    intro p hp
    rw [show exTwoTouchState.pendingFirstTouch = (none : Option Touch) from by decide] at hp
    exact Option.noConfusion hp
  have hTU : TouchUnique exTwoTouchState.assignments := by
    show (touchIds exTwoTouchState.assignments).Nodup
    decide
  exact ⟨hpend, hTU, by decide,
    C4_end_pincher ext0 50 ⟨2, 3, 4⟩ exSecondEntry hpend hTU (by decide)⟩

end Touchscreen
